import Mathlib

/-!
Verification of the rstbuddy outline pipeline (validator, parser, converter).

This file shallowly embeds the Python sources of the `rstbuddy` repository:

* `src/rstbuddy/services/outline_parser.py`   (class `OutlineParser`)
* `src/rstbuddy/services/outline_validator.py` (class `OutlineValidator`)
* `src/rstbuddy/services/outline_converter.py` (class `OutlineConverter`)
* `src/rstbuddy/services/marko_outline_parser.py` (class `MarkoOutlineParser`)
* `src/rstbuddy/models/outline.py`            (data model)

Strings are modelled as `List Char`.  Python's Unicode-aware character
classes (`\w`, `\s`, `str.lower`, `str.isalpha`) are modelled over their
ASCII fragment; every document appearing in a theorem below is ASCII, so
this restriction is invisible to the claims.  Regular expressions are
embedded as recursive functions; in each place the Python engine's
backtracking is relevant, the embedding implements the match set of the
regex (maximal-munch with the alternatives tried in order), as argued in
the comments next to each matcher.
-/

namespace Rstbuddy

/-- Strings are lists of characters. -/
abbrev Str := List Char

/-- Shorthand to turn a Lean string literal into our `Str` model. -/
def str (s : String) : Str := s.toList

/-- ASCII decimal digit, the ASCII fragment of Python's `\d`. -/
def isDigitChar (c : Char) : Bool := 48 ≤ c.toNat && c.toNat ≤ 57

/-- ASCII uppercase letter, Python's `[A-Z]`. -/
def isUpperChar (c : Char) : Bool := 65 ≤ c.toNat && c.toNat ≤ 90

/-- ASCII lowercase letter, Python's `[a-z]`. -/
def isLowerChar (c : Char) : Bool := 97 ≤ c.toNat && c.toNat ≤ 122

/-- ASCII letter, the ASCII fragment of Python's `str.isalpha`. -/
def isAlphaChar (c : Char) : Bool := isUpperChar c || isLowerChar c

/-- ASCII whitespace, the ASCII fragment of Python's `\s` / `str.strip`:
space, tab, newline, carriage return, vertical tab, form feed. -/
def isSpaceChar (c : Char) : Bool :=
  c.toNat = 32 || c.toNat = 9 || c.toNat = 10 || c.toNat = 13 ||
  c.toNat = 11 || c.toNat = 12

/-- ASCII word character, the ASCII fragment of Python's `\w`:
letters, digits and underscore. -/
def isWordChar (c : Char) : Bool :=
  isAlphaChar c || isDigitChar c || c.toNat = 95

/-- Drop matching characters from the end of a list
(`l.reverse.dropWhile p` reversed back). -/
def dropTrailing (p : Char → Bool) (l : Str) : Str :=
  (l.reverse.dropWhile p).reverse

/-- Python `str.strip()`: drop whitespace from both ends. -/
def pyStrip (l : Str) : Str :=
  dropTrailing isSpaceChar (l.dropWhile isSpaceChar)

/-- Python `str.rstrip()`: drop whitespace from the right end. -/
def pyRStrip (l : Str) : Str := dropTrailing isSpaceChar l

/-- Python `str.startswith`, on character lists. -/
def strStartsWith : Str → Str → Bool
  | _, [] => true
  | [], _ :: _ => false
  | c :: cs, d :: ds => c = d && strStartsWith cs ds

/-- Python substring membership `needle in hay`, on character lists. -/
def strContains : Str → Str → Bool
  | [], needle => needle.isEmpty
  | c :: cs, needle => strStartsWith (c :: cs) needle || strContains cs needle

/-- Python slice `xs[a:b]` for `0 ≤ a ≤ b` (clamped at the list length). -/
def pySlice (xs : List Str) (a b : Nat) : List Str :=
  (xs.drop a).take (b - a)

/-- Split a string at every newline character, Python `s.split("\n")`. -/
def splitNl (c : Str) : List Str := c.splitOn '\n'

/-- Join a list of strings with newline separators, Python `"\n".join(ls)`. -/
def joinNl (ls : List Str) : Str := List.intercalate [ '\n' ] ls

/-- Python `str.splitlines()` restricted to `\n` separators: like
`split("\n")` but without the empty fragment a trailing newline produces,
and `[]` on the empty string. -/
def pySplitLines (c : Str) : List Str :=
  if c = [] then []
  else
    let ps := splitNl c
    match ps.getLast? with
    | some [] => ps.dropLast
    | _ => ps

/-- Python `int(...)` on a string of ASCII digits. -/
def digitsToNat (ds : Str) : Nat :=
  ds.foldl (fun a c => 10 * a + (c.toNat - 48)) 0

/-- Decimal rendering of a natural number, Python f-string `{n}`. -/
def natToStr (n : Nat) : Str := Nat.toDigits 10 n

/-! ## Data model (`src/rstbuddy/models/outline.py`) -/

/-- `HeadingType` enumeration (the `BOOK_TITLE` member is never stored in a
chapter and is omitted). -/
inductive HeadingType where
  | prologue
  | introduction
  | chapter
  | appendix
deriving DecidableEq, Repr

/-- `ContentBlock`: a block of content between headings. -/
structure ContentBlock where
  content : Str
  line_start : Nat
  line_end : Nat
deriving DecidableEq, Repr

/-- `Section`: a section within a chapter.  An empty `filename` marks a
content heading (the code has no separate kind field). -/
structure Section where
  title : Str
  number : Str
  content : ContentBlock
  filename : Str
deriving DecidableEq, Repr

/-- `Chapter`: a chapter in the book. -/
structure Chapter where
  title : Str
  heading_type : HeadingType
  folder_name : Str
  content : ContentBlock
  sections : List Section
  chapter_number : Option Nat := none
  appendix_letter : Option Str := none
deriving DecidableEq, Repr

/-- `BookOutline`: complete book outline structure.  The output directory
is modelled as a plain path string. -/
structure BookOutline where
  title : Str
  introduction_content : ContentBlock
  chapters : List Chapter
  output_dir : Str
deriving DecidableEq, Repr

/-- `ValidationError`: line number, message and severity. -/
structure ValidationError where
  line_number : Nat
  message : Str
  severity : Str
deriving DecidableEq, Repr

/-- `ValidationResult`: validity flag plus error and warning lists. -/
structure ValidationResult where
  is_valid : Bool
  errors : List ValidationError
  warnings : List ValidationError
deriving DecidableEq, Repr

/-! ## Section heading pattern (`outline_parser.py` lines 23-24)

`SECTION_HEADING_PATTERN = r"^(\d+\.\d+|[A-Z]\.\d+)(?!\.\d)\s+(.*)"`.

The embedding below implements the exact match set of `re.match` with
this pattern.  Both `\d+` groups must be taken maximally: shortening the
second digit run leaves a digit as the next character, which satisfies
the negative lookahead but can never satisfy `\s+`, so no backtracked
alternative succeeds; shortening the first run leaves a digit where `\.`
is required.  Group 2 is the text after the maximal run of whitespace
(`.*` cannot hit a newline because heading texts are single lines). -/

/-- Match the leading `(\d+\.\d+|[A-Z]\.\d+)` group maximally, returning
the matched number and the remaining characters. -/
def matchNumberPart (cs : Str) : Option (Str × Str) :=
  match cs with
  | [] => none
  | c :: _ =>
    if isDigitChar c then
      let d1 := cs.takeWhile isDigitChar
      match cs.dropWhile isDigitChar with
      | '.' :: r2 =>
        let d2 := r2.takeWhile isDigitChar
        if d2 = [] then none
        else some (d1 ++ '.' :: d2, r2.dropWhile isDigitChar)
      | _ => none
    else if isUpperChar c then
      match cs with
      | u :: '.' :: r2 =>
        let d2 := r2.takeWhile isDigitChar
        if d2 = [] then none
        else some (u :: '.' :: d2, r2.dropWhile isDigitChar)
      | _ => none
    else none

/-- Does the text start with `.` followed by a digit?  This is the body of
the negative lookahead `(?!\.\d)`. -/
def startsWithDotDigit (cs : Str) : Bool :=
  match cs with
  | '.' :: d :: _ => isDigitChar d
  | _ => false

/-- Full `re.match(SECTION_HEADING_PATTERN, text)`: on success returns
(group 1, group 2). -/
def matchSectionHeading (cs : Str) : Option (Str × Str) :=
  match matchNumberPart cs with
  | none => none
  | some (number, rest) =>
    if startsWithDotDigit rest then none
    else
      match rest with
      | c :: _ =>
        if isSpaceChar c then some (number, rest.dropWhile isSpaceChar)
        else none
      | [] => none

/-! ## Filename sanitizer (`OutlineParser._sanitize_filename`) -/

/-- Characters kept by `re.sub(r"[^\w\s-]", "", title)`. -/
def keepChar (c : Char) : Bool := isWordChar c || isSpaceChar c || c = '-'

/-- Characters of the class `[-\s]`. -/
def isHyphenOrSpace (c : Char) : Bool := c = '-' || isSpaceChar c

/-- Worker for `re.sub(r"[-\s]+", "-", s)`: the flag records whether we are
inside a run of `[-\s]` characters that already emitted its hyphen. -/
def collapseGo : Bool → Str → Str
  | _, [] => []
  | inRun, c :: cs =>
    if isHyphenOrSpace c then
      if inRun then collapseGo true cs else '-' :: collapseGo true cs
    else c :: collapseGo false cs

/-- `re.sub(r"[-\s]+", "-", s)`: every maximal run of whitespace and
hyphens becomes a single hyphen. -/
def collapseRuns (s : Str) : Str := collapseGo false s

/-- Python `s.strip("-")`. -/
def stripHyphens (s : Str) : Str :=
  dropTrailing (fun c => c = '-') (s.dropWhile (fun c => c = '-'))

/-- ASCII `str.lower` on a single character. -/
def lowerChar (c : Char) : Char :=
  if 65 ≤ c.toNat ∧ c.toNat ≤ 90 then Char.ofNat (c.toNat + 32) else c

/-- The sanitizer before the emptiness check and the `.rst` suffix:
filter, collapse runs, strip hyphens, lowercase. -/
def sanitizeBase (title : Str) : Str :=
  ((stripHyphens (collapseRuns (title.filter keepChar))).map lowerChar)

/-- `OutlineParser._sanitize_filename`: sanitize the title and append the
`.rst` extension, substituting `"section"` when the result is empty. -/
def sanitizeFilename (title : Str) : Str :=
  (if sanitizeBase title = [] then str "section" else sanitizeBase title)
    ++ str ".rst"

/-! ## Section and chapter heading classification (`OutlineParser`) -/

/-- `OutlineParser._parse_section_heading`: classify a level-3 heading.
A successful pattern match yields a numbered section (with sanitized
filename); anything else yields a content heading with empty filename
and empty number. -/
def parseSectionHeading (text : Str) (line_number : Nat) : Section :=
  let text := pyStrip text
  match matchSectionHeading text with
  | some (number, g2) =>
    let title := pyStrip g2
    let title := if title = [] then str "Section " ++ number else title
    { title := title
      number := number
      content := ⟨[], line_number, line_number⟩
      filename := sanitizeFilename title }
  | none =>
    { title := text
      number := []
      content := ⟨[], line_number, line_number⟩
      filename := [] }

/-- `re.match(r"^Chapter\s+(\d+):\s*(.*)", text)`, returning the chapter
number.  Greediness is again forced: shortening `\s+` leaves a space
where `\d+` needs a digit, shortening `\d+` leaves a digit where `:` is
required. -/
def matchChapterNumber (text : Str) : Option Nat :=
  if strStartsWith text (str "Chapter") then
    let r := text.drop 7
    if r.takeWhile isSpaceChar = [] then none
    else
      let r2 := r.dropWhile isSpaceChar
      let ds := r2.takeWhile isDigitChar
      if ds = [] then none
      else
        match r2.dropWhile isDigitChar with
        | ':' :: _ => some (digitsToNat ds)
        | _ => none
  else none

/-- `OutlineParser._parse_chapter_heading`: classify a level-2 heading. -/
def parseChapterHeading (text : Str) (line_number : Nat) : Chapter :=
  if strStartsWith text (str "Prologue") then
    { title := text, heading_type := .prologue, folder_name := str "prologue"
      content := ⟨[], line_number, line_number⟩, sections := [] }
  else if strStartsWith text (str "Introduction") then
    { title := text, heading_type := .introduction
      folder_name := str "introduction"
      content := ⟨[], line_number, line_number⟩, sections := [] }
  else
    match matchChapterNumber text with
    | some n =>
      { title := text, heading_type := .chapter
        folder_name := str "chapter" ++ natToStr n
        content := ⟨[], line_number, line_number⟩, sections := []
        chapter_number := some n }
    | none =>
      if strStartsWith text (str "Appendix ") then
        let ap := text.drop 9
        let baseLetter :=
          if ap.any (fun c => c = ':') then pyStrip (ap.takeWhile (fun c => ¬ c = ':'))
          else if ap.any (fun c => c = '.') then pyStrip (ap.takeWhile (fun c => ¬ c = '.'))
          else pyStrip ap
        let folder :=
          match baseLetter with
          | [c] => if isAlphaChar c then str "appendix" ++ [c] else str "appendix_unknown"
          | _ => str "appendix_unknown"
        { title := text, heading_type := .appendix, folder_name := folder
          content := ⟨[], line_number, line_number⟩, sections := []
          appendix_letter := some baseLetter }
      else
        { title := text, heading_type := .chapter, folder_name := str "unknown"
          content := ⟨[], line_number, line_number⟩, sections := [] }

/-! ## Line-based outline parser (`OutlineParser._parse_structure` et al.)

`lines` models the list returned by `readlines()`: each element keeps its
trailing newline.  Line numbers are 1-indexed as in the source. -/

/-- Internal `_ParsingState` dataclass. -/
structure ParsingState where
  title : Str := []
  title_line : Nat := 0
  first_h2_line : Nat := 0
  chapter_content_start : Nat := 0
  current_chapter : Option Chapter := none
  current_section : Option Section := none
  section_content_start : Nat := 0
  chapters : List Chapter := []
deriving DecidableEq, Repr

/-- A junk chapter used only to satisfy `Option.getD` in spots where the
source has already checked that `current_chapter` is not `None`. -/
def defaultChapter : Chapter :=
  { title := [], heading_type := .chapter, folder_name := []
    content := ⟨[], 0, 0⟩, sections := [] }

/-- `OutlineParser._extract_content_block`: join the (1-indexed, inclusive)
line range into one content string. -/
def extractContentBlock (lines : List Str) (start_line end_line : Nat) :
    ContentBlock :=
  if start_line > end_line ∨ start_line > lines.length then
    ⟨[], start_line, end_line⟩
  else
    ⟨(pySlice lines (start_line - 1) (min end_line lines.length)).flatten,
      start_line, end_line⟩

/-- Scan `rem` (the lines from index `i` on) for the first index whose line
satisfies `cond`; `total` is returned when no line matches. -/
def findFromAux {α : Type} (cond : α → Bool) : List α → Nat → Nat → Nat
  | [], _, total => total
  | l :: rs, i, total => if cond l then i else findFromAux cond rs (i + 1) total

/-- The boundary test of `OutlineParser._find_next_heading_end`: a stripped
line starting with `###` whose text matches
`re.match(r"^(\d+\.\d+|[A-Z]\.\d+)\b", ...)`.  The word boundary after
`\d+` holds exactly when the character after the maximal digit run is
missing or not a word character (a shorter run would put two word
characters, digit and digit, at the boundary). -/
def matchBoundaryNumber (cs : Str) : Bool :=
  match matchNumberPart cs with
  | none => false
  | some (_, rest) =>
    match rest with
    | [] => true
    | c :: _ => ¬ isWordChar c

/-- Is this line a content-heading boundary for
`_find_next_heading_end`? -/
def isNumberedH3Bound (line : Str) : Bool :=
  let l := pyStrip line
  strStartsWith l (str "###") && matchBoundaryNumber (pyStrip (l.drop 3))

/-- `OutlineParser._find_next_heading_end`: scan from index `start_line`
(the source reuses a 1-indexed line number as a 0-based index, so the scan
starts on the line after the heading) for the next numbered level-3
heading; `len(lines)` when none exists.  Level-2 headings do NOT stop the
scan. -/
def findNextHeadingEnd (lines : List Str) (start_line : Nat) : Nat :=
  findFromAux isNumberedH3Bound (lines.drop start_line) start_line lines.length

/-- The boundary test of `OutlineParser._find_next_heading_after_chapter`
for level-3 lines: `re.match(r"^(\d+\.\d+|[A-Z]\.\d+)(?!\.\d)", ...)`.
Because nothing follows the lookahead, the engine may backtrack the second
`\d+`: with at least two digits in the maximal run a shorter run puts a
digit after the group and the lookahead succeeds, so the pattern matches;
with a single digit it matches exactly when the following characters are
not `.` plus a digit. -/
def matchLookaheadNumber (cs : Str) : Bool :=
  match cs with
  | [] => false
  | c :: _ =>
    if isDigitChar c then
      let r1 := cs.dropWhile isDigitChar
      match r1 with
      | '.' :: r2 =>
        let d2 := r2.takeWhile isDigitChar
        decide (2 ≤ d2.length) ||
          (decide (d2.length = 1) && ¬ startsWithDotDigit (r2.dropWhile isDigitChar))
      | _ => false
    else if isUpperChar c then
      match cs with
      | _ :: '.' :: r2 =>
        let d2 := r2.takeWhile isDigitChar
        decide (2 ≤ d2.length) ||
          (decide (d2.length = 1) && ¬ startsWithDotDigit (r2.dropWhile isDigitChar))
      | _ => false
    else false

/-- Boundary test of `_find_next_heading_after_chapter` for a single line:
either a level-2 heading, or a level-3 heading with a numbered text. -/
def isChapterBound (line : Str) : Bool :=
  let l := pyStrip line
  (strStartsWith l (str "##") && ¬ strStartsWith l (str "###")) ||
  (strStartsWith l (str "###") && matchLookaheadNumber (pyStrip (l.drop 3)))

/-- `OutlineParser._find_next_heading_after_chapter`: next chapter (`##`)
or numbered section (`###`) after the (0-based-interpreted) position
`chapter_start`; content headings are skipped. -/
def findNextHeadingAfterChapter (lines : List Str) (chapter_start : Nat) : Nat :=
  findFromAux isChapterBound (lines.drop chapter_start) chapter_start lines.length

/-- `OutlineParser._finalize_section`: extract the current section content
up to `next_line - 1` and append the section to the current chapter. -/
def finalizeSection (lines : List Str) (st : ParsingState) (next_line : Nat) :
    ParsingState :=
  match st.current_chapter, st.current_section with
  | some ch, some sec =>
    let sec :=
      { sec with content := extractContentBlock lines st.section_content_start (next_line - 1) }
    { st with current_chapter := some { ch with sections := ch.sections ++ [sec] }
              current_section := none }
  | _, _ => st

/-- `OutlineParser._extract_chapter_content_before_section`: the chapter
content is everything from the chapter heading to the line before the
first numbered section heading. -/
def extractChapterContentBeforeSection (lines : List Str) (st : ParsingState)
    (line_num : Nat) : ParsingState :=
  match st.current_chapter with
  | none => st
  | some ch =>
    let ch' := { ch with content := extractContentBlock lines st.chapter_content_start (line_num - 1) }
    { st with current_chapter := some ch' }

/-- `OutlineParser._handle_content_heading`: absorb a content heading plus
its trailing content (up to the next numbered level-3 heading or end of
file) into the chapter content, separated from existing content by a
blank line. -/
def handleContentHeading (lines : List Str) (line_num : Nat) (st : ParsingState) :
    ParsingState :=
  match st.current_chapter with
  | none => st
  | some ch =>
    let content_end := findNextHeadingEnd lines line_num
    let block := extractContentBlock lines line_num content_end
    let ch' :=
      if ¬ ch.content.content = [] then
        { ch with content := { ch.content with content := ch.content.content ++ str "\n\n" ++ block.content } }
      else
        { ch with content := block }
    { st with current_chapter := some ch', current_section := none }

/-- `OutlineParser._process_section_heading`. -/
def processSectionHeading (text : Str) (line_num : Nat) (lines : List Str)
    (st : ParsingState) : ParsingState :=
  let st := if st.current_section.isSome then finalizeSection lines st line_num else st
  let sec := parseSectionHeading text line_num
  if sec.filename = [] then
    if st.current_chapter.isSome ∧ (st.current_chapter.getD defaultChapter).sections.length = 0 then
      handleContentHeading lines line_num st
    else st
  else
    let st :=
      if st.current_chapter.isSome ∧ (st.current_chapter.getD defaultChapter).sections.length = 0 then
        extractChapterContentBeforeSection lines st line_num
      else st
    { st with current_section := some sec, section_content_start := line_num }

/-- `OutlineParser._finalize_chapter`: close the open chapter when a new
level-2 heading arrives. -/
def finalizeChapter (lines : List Str) (st : ParsingState) : ParsingState :=
  match st.current_chapter with
  | none => st
  | some ch =>
    if ch.sections.length > 0 then
      let st := if st.current_section.isSome then finalizeSection lines st lines.length else st
      { st with chapters := st.chapters ++ [st.current_chapter.getD defaultChapter] }
    else
      let nh := findNextHeadingAfterChapter lines st.chapter_content_start
      let ch' := { ch with content := extractContentBlock lines st.chapter_content_start (nh - 1) }
      { st with current_chapter := some ch', chapters := st.chapters ++ [ch'] }

/-- `OutlineParser._process_title_heading`. -/
def processTitleHeading (heading_text : Str) (line_num : Nat) (st : ParsingState) :
    ParsingState :=
  { st with title := heading_text, title_line := line_num
            chapter_content_start := line_num }

/-- `OutlineParser._process_chapter_heading`. -/
def processChapterHeading (heading_text : Str) (line_num : Nat) (lines : List Str)
    (st : ParsingState) : ParsingState :=
  let st := if st.current_chapter.isSome then finalizeChapter lines st else st
  { st with current_chapter := some (parseChapterHeading heading_text line_num)
            first_h2_line := if st.first_h2_line = 0 then line_num else st.first_h2_line
            chapter_content_start := line_num
            current_section := none }

/-- Count of leading `#` characters, `len(line) - len(line.lstrip("#"))`. -/
def headingLevel (line : Str) : Nat :=
  line.length - (line.dropWhile (fun c => c = '#')).length

/-- `OutlineParser._process_heading`: route a `#`-initial line to the
title, chapter or section processor. -/
def processHeading (line : Str) (line_num : Nat) (lines : List Str)
    (st : ParsingState) : ParsingState :=
  let level := headingLevel line
  let heading_text := pyStrip ((pyStrip line).drop level)
  if level = 1 ∧ st.title = [] then processTitleHeading heading_text line_num st
  else if level = 2 then processChapterHeading heading_text line_num lines st
  else if level = 3 ∧ st.current_chapter.isSome then
    processSectionHeading heading_text line_num lines st
  else st

/-- `OutlineParser._finalize_remaining_content`: flush the open section or
chapter at end of file. -/
def finalizeRemainingContent (lines : List Str) (st : ParsingState) : ParsingState :=
  match st.current_chapter with
  | none => st
  | some ch =>
    match st.current_section with
    | some sec =>
      let sec := { sec with content := extractContentBlock lines st.section_content_start lines.length }
      let ch' := { ch with sections := ch.sections ++ [sec] }
      { st with current_chapter := some ch', chapters := st.chapters ++ [ch'] }
    | none =>
      let ch' := { ch with content := extractContentBlock lines st.chapter_content_start lines.length }
      { st with current_chapter := some ch', chapters := st.chapters ++ [ch'] }

/-- `OutlineParser._extract_introduction_content`. -/
def extractIntroductionContent (lines : List Str) (st : ParsingState) : ContentBlock :=
  if ¬ st.chapters = [] ∧ ¬ st.title_line = 0 ∧ ¬ st.first_h2_line = 0 then
    extractContentBlock lines st.title_line (st.first_h2_line - 1)
  else ⟨[], 0, 0⟩

/-- The main loop of `OutlineParser._parse_structure`: process every line
that starts with `#`, in order, threading the parsing state. -/
def parseLoop (lines : List Str) : ParsingState :=
  lines.enum.foldl
    (fun st p =>
      if strStartsWith p.2 (str "#") then processHeading p.2 (p.1 + 1) lines st else st)
    {}

/-- `OutlineParser._parse_structure`: returns (title, introduction content,
chapters). -/
def parseStructure (lines : List Str) : Str × ContentBlock × List Chapter :=
  let st := parseLoop lines
  let st := finalizeRemainingContent lines st
  (st.title, extractIntroductionContent lines st, st.chapters)

/-! ## Validator (`outline_validator.py`)

`_check_basic_syntax` scans the raw text with the MULTILINE patterns
`^#+\s*(\d+\.\d+\.\d+)` and `^#+\s*([A-Z]\.\d+\.\d+)`; thanks to the `^`
anchor every match starts at a line start, and its reported position is
`content[:match.start()].count("\n") + 1`, i.e. the 1-indexed number of
that line.  The embedding scans the content split at newlines; Python's
`\s` would additionally let a match continue onto a following line when a
marker line ends in whitespace only, which can only add further errors
and is irrelevant to the claims below.  All three `\d+` groups are forced
maximal (a shorter run leaves a digit where `\.` or the group end is
required). -/

/-- Match `#+\s*(\d+\.\d+\.\d+)` against the start of one line, returning
group 1. -/
def matchDeepNumericLine (line : Str) : Option Str :=
  match line with
  | '#' :: _ =>
    let r := (line.dropWhile (fun c => c = '#')).dropWhile isSpaceChar
    let d1 := r.takeWhile isDigitChar
    if d1 = [] then none
    else
      match r.dropWhile isDigitChar with
      | '.' :: r2 =>
        let d2 := r2.takeWhile isDigitChar
        if d2 = [] then none
        else
          match r2.dropWhile isDigitChar with
          | '.' :: r3 =>
            let d3 := r3.takeWhile isDigitChar
            if d3 = [] then none
            else some (d1 ++ '.' :: d2 ++ '.' :: d3)
          | _ => none
      | _ => none
  | _ => none

/-- Match `#+\s*([A-Z]\.\d+\.\d+)` against the start of one line, returning
group 1. -/
def matchDeepAppendixLine (line : Str) : Option Str :=
  match line with
  | '#' :: _ =>
    let r := (line.dropWhile (fun c => c = '#')).dropWhile isSpaceChar
    match r with
    | u :: '.' :: r2 =>
      if isUpperChar u then
        let d2 := r2.takeWhile isDigitChar
        if d2 = [] then none
        else
          match r2.dropWhile isDigitChar with
          | '.' :: r3 =>
            let d3 := r3.takeWhile isDigitChar
            if d3 = [] then none
            else some (u :: '.' :: d2 ++ '.' :: d3)
          | _ => none
      else none
    | _ => none
  | _ => none

/-- The error built for a deep numeric section match
(`outline_validator.py` lines 142-151). -/
def deepNumericError (line_number : Nat) (num : Str) : ValidationError :=
  { line_number := line_number
    message := str "Section numbering '" ++ num ++
      str "' exceeds maximum of two levels. Do not number section headings within chapters.'"
    severity := str "error" }

/-- The error built for a deep appendix section match
(`outline_validator.py` lines 157-164). -/
def deepAppendixError (line_number : Nat) (num : Str) : ValidationError :=
  { line_number := line_number
    message := str "Appendix section numbering '" ++ num ++
      str "' exceeds maximum of two levels. Use format 'X.Y' instead of 'X.Y.Z'"
    severity := str "error" }

/-- `OutlineValidator._check_basic_syntax` over the content split at
newlines: all numeric violations in line order, then all appendix
violations in line order. -/
def checkBasicSyntax (contentLines : List Str) : List ValidationError :=
  (contentLines.enum.filterMap fun p =>
    (matchDeepNumericLine p.2).map (deepNumericError (p.1 + 1))) ++
  (contentLines.enum.filterMap fun p =>
    (matchDeepAppendixLine p.2).map (deepAppendixError (p.1 + 1)))

/-- The tail of `OutlineValidator.validate_file` (lines 97-103): split the
collected diagnostics by severity; valid exactly when no error-severity
entry exists. -/
def mkValidationResult (errors : List ValidationError) : ValidationResult :=
  { is_valid := (errors.filter fun e => e.severity = str "error").length == 0
    errors := errors.filter fun e => e.severity = str "error"
    warnings := errors.filter fun e => e.severity = str "warning" }

/-- The fallback result of the `except` branch of `validate_file`
(lines 105-113). -/
def fallbackValidationResult (msg : Str) : ValidationResult :=
  { is_valid := false
    errors := [{ line_number := 1, message := msg, severity := str "error" }]
    warnings := [] }

/-- `OutlineValidator.validate_file` on already-read content:
`structureErrors` stands for the output of `_check_heading_structure`,
whose heading extraction goes through the external `marko` parser and is
therefore a parameter here. -/
def validateContent (contentLines : List Str) (structureErrors : List ValidationError) :
    ValidationResult :=
  mkValidationResult (checkBasicSyntax contentLines ++ structureErrors)

/-! ## File writing (`OutlineConverter` / `rst_utils.py`)

The file system is a map from path strings to contents, plus the set of
existing directories and the list of backup copies made (the timestamped
backup name is abstracted away; the claims only count backups).  Every
print becomes a `WriteEvent`. -/

/-- Events reported by the writing primitives (the `print` calls of the
source). -/
inductive WriteEvent where
  | unchanged (path : Str)
  | backedUp (path : Str)
  | updated (path : Str)
  | wouldBackup (path : Str)
  | wouldUpdate (path : Str)
deriving DecidableEq, Repr

/-- Model file system state. -/
structure FS where
  files : List (Str × Str)
  dirs : List Str
  backups : List (Str × Str)
deriving DecidableEq, Repr

/-- The empty file system. -/
def emptyFS : FS := ⟨[], [], []⟩

/-- Read a file (newest write wins). -/
def fsGet (fs : FS) (p : Str) : Option Str :=
  (fs.files.find? fun kv => kv.1 = p).map (fun kv => kv.2)

/-- Write a file. -/
def fsSet (fs : FS) (p v : Str) : FS :=
  { fs with files := (p, v) :: fs.files }

/-- `mkdir(parents=True, exist_ok=True)` for a single directory. -/
def fsMkdir (fs : FS) (d : Str) : FS :=
  if fs.dirs.contains d then fs else { fs with dirs := d :: fs.dirs }

/-- `_normalize_content`: strip trailing whitespace from every line. -/
def normalizeContent (c : Str) : Str :=
  joinNl ((pySplitLines c).map pyRStrip)

/-- `OutlineConverter._content_is_different`: a missing file is
"different"; otherwise compare the normalized contents. -/
def contentIsDifferent (fs : FS) (p new : Str) : Bool :=
  match fsGet fs p with
  | none => true
  | some existing => ¬ (normalizeContent existing = normalizeContent new)

/-- `OutlineConverter._backup_file_if_exists`: copy the current content
aside (timestamped name abstracted) unless in dry-run mode. -/
def backupFileIfExists (fs : FS) (p : Str) (dryRun : Bool) : FS × List WriteEvent :=
  match fsGet fs p with
  | some v =>
    if dryRun then (fs, [.wouldBackup p])
    else ({ fs with backups := fs.backups ++ [(p, v)] }, [.backedUp p])
  | none => (fs, [])

/-- `OutlineConverter._backup_and_write_file`: skip unchanged content,
back up before overwrite when forced, honour dry-run.  (The redundant
`parent.mkdir` before the write is omitted: in `convert_outline` every
parent directory has already been created.) -/
def backupAndWriteFile (fs : FS) (p new : Str) (force dryRun : Bool) :
    FS × List WriteEvent :=
  if ¬ contentIsDifferent fs p new then (fs, [.unchanged p])
  else
    let s1 : FS × List WriteEvent :=
      if force ∧ (fsGet fs p).isSome then
        if dryRun then (fs, [.wouldBackup p]) else backupFileIfExists fs p dryRun
      else (fs, [])
    if dryRun then (s1.1, s1.2 ++ [.wouldUpdate p])
    else (fsSet s1.1 p new, s1.2 ++ [.updated p])

/-- Apply a list of writes in order through `backupAndWriteFile`,
collecting the events. -/
def runWrites (force dryRun : Bool) (fs : FS) : List (Str × Str) → FS × List WriteEvent
  | [] => (fs, [])
  | (p, c) :: rest =>
    let s1 := backupAndWriteFile fs p c force dryRun
    let s2 := runWrites force dryRun s1.1 rest
    (s2.1, s1.2 ++ s2.2)

/-! ## Pandoc cache (`OutlineConverter.__init__` / `convert_content_to_rst`)

The external pandoc invocation is abstracted as a function `P`; the
returned triple also carries the list of texts for which pandoc was
actually run, so invocation counts become visible. -/

/-- The converter state built by `OutlineConverter.__init__`. -/
structure ConverterState where
  force : Bool
  dry_run : Bool
  content_cache : List (Str × Str)
deriving DecidableEq, Repr

/-- `OutlineConverter.__init__`: the cache starts empty. -/
def mkOutlineConverter (force dryRun : Bool) : ConverterState :=
  { force := force, dry_run := dryRun, content_cache := [] }

/-- Exact-text cache lookup (`markdown_content in self._content_cache`). -/
def cacheLookup (cache : List (Str × Str)) (k : Str) : Option Str :=
  (cache.find? fun kv => kv.1 = k).map (fun kv => kv.2)

/-- `OutlineConverter.convert_content_to_rst`: blank input returns `""`
without touching pandoc; a cache hit returns the cached text; otherwise
pandoc runs once and the result is stored.  Returns (result, new cache,
pandoc invocations performed by this call). -/
def convertContentToRst (P : Str → Str) (cache : List (Str × Str)) (md : Str) :
    Str × List (Str × Str) × List Str :=
  if pyStrip md = [] then ([], cache, [])
  else
    match cacheLookup cache md with
    | some v => (v, cache, [])
    | none => (P md, (md, P md) :: cache, [md])

/-- Run a sequence of `convert_content_to_rst` calls, threading the cache
and collecting all pandoc invocations. -/
def runConversions (P : Str → Str) (cache : List (Str × Str)) :
    List Str → List (Str × Str) × List Str
  | [] => (cache, [])
  | md :: rest =>
    let s1 := convertContentToRst P cache md
    let s2 := runConversions P s1.2.1 rest
    (s2.1, s1.2.2 ++ s2.2)

/-- Pure value of `convert_content_to_rst` (the cache is keyed by exact
text and pandoc `P` is deterministic, so a hit returns exactly what a
fresh invocation would). -/
def convertContentPure (P : Str → Str) (md : Str) : Str :=
  if pyStrip md = [] then [] else P md

/-! ## RST generation (`OutlineConverter`) -/

/-- `OutlineConverter._filter_chapter_heading`: drop every line whose
stripped form is the chapter title, optionally preceded by `# ` or
`## `. -/
def filterChapterHeading (content chapterTitle : Str) : Str :=
  joinNl ((splitNl content).filter fun line =>
    ¬ (pyStrip line = chapterTitle ∨ pyStrip line = str "# " ++ chapterTitle ∨
       pyStrip line = str "## " ++ chapterTitle))

/-- Per-line keep test of `OutlineConverter._filter_section_heading`; the
whole line list is needed because the source consults
`lines[lines.index(line) + 1]` for the underline check. -/
def keepSectionLine (all : List Str) (sectionTitle line : Str) : Bool :=
  let sl := pyStrip line
  if sl = sectionTitle ∨ sl = str "# " ++ sectionTitle ∨ sl = str "## " ++ sectionTitle then
    false
  else if ¬ sectionTitle = [] ∧ strContains sl sectionTitle then
    let idx := all.findIdx (fun x => x = line)
    let nexts := pySlice all (idx + 1) (idx + 2)
    if strStartsWith sl (str "#") ∨
        nexts.any (fun nl => strStartsWith (pyStrip nl) (str "~") ∨
                             strStartsWith (pyStrip nl) (str "-")) then
      false
    else true
  else true

/-- `OutlineConverter._filter_section_heading`. -/
def filterSectionHeading (content sectionTitle : Str) : Str :=
  let lines := splitNl content
  joinNl (lines.filter (keepSectionLine lines sectionTitle))

/-- Everything after the first `:`, Python `title.split(":", 1)[1]`; the
empty string when no colon occurs (where Python would raise IndexError —
unreachable for validated chapter titles, which always carry the colon). -/
def afterFirstColon (t : Str) : Str :=
  if t.any (fun c => c = ':') then (t.dropWhile (fun c => ¬ c = ':')).drop 1 else []

/-- `OutlineConverter._get_clean_chapter_title`. -/
def getCleanChapterTitle (ch : Chapter) : Str :=
  match ch.heading_type with
  | .prologue => str "Prologue"
  | .introduction =>
    if strStartsWith ch.title (str "Introduction") then
      if ch.title.any (fun c => c = ':') then pyStrip (afterFirstColon ch.title)
      else str "Introduction"
    else ch.title
  | .chapter =>
    if strStartsWith ch.title (str "Chapter ") then pyStrip (afterFirstColon ch.title)
    else ch.title
  | .appendix =>
    if strStartsWith ch.title (str "Appendix ") then
      let ap := ch.title.drop 9
      if ap.any (fun c => c = ':') then pyStrip (afterFirstColon ap) else pyStrip ap
    else ch.title

/-- Fuel-driven worker consuming the `(?:\.\d+)*` iterations of the
section-number prefix (the fuel, initialized to the string length, is
strictly larger than the number of iterations, so it never runs out). -/
def consumeDotDigitGroups : Nat → Str → Str
  | 0, s => s
  | _ + 1, [] => []
  | fuel + 1, s@('.' :: rest) =>
    if rest.takeWhile isDigitChar = [] then s
    else consumeDotDigitGroups fuel (rest.dropWhile isDigitChar)
  | _ + 1, s => s

/-- `OutlineConverter._get_clean_section_title`:
`re.sub(r"^(?:\d+(?:\.\d+)*\s*:?\s*|[A-Z]\.\d+(?:\.\d+)*\s*:?\s*|:\s*)", "", t)`
followed by `strip()`.  All pieces are greedy and never need to
backtrack (everything after each piece can match empty). -/
def getCleanSectionTitle (t : Str) : Str :=
  let afterNum : Str → Str := fun r =>
    let r := consumeDotDigitGroups r.length r
    let r := r.dropWhile isSpaceChar
    let r := match r with | ':' :: rr => rr | _ => r
    r.dropWhile isSpaceChar
  pyStrip
    (match t with
     | c :: _ =>
       if isDigitChar c then afterNum (t.dropWhile isDigitChar)
       else if isUpperChar c then
         match t with
         | _ :: '.' :: r2 =>
           if r2.takeWhile isDigitChar = [] then
             match t with
             | ':' :: r => r.dropWhile isSpaceChar
             | _ => t
           else afterNum (r2.dropWhile isDigitChar)
         | _ =>
           match t with
           | ':' :: r => r.dropWhile isSpaceChar
           | _ => t
       else
         match t with
         | ':' :: r => r.dropWhile isSpaceChar
         | _ => t
     | [] => [])

/-- The `content` list of `OutlineConverter._generate_top_level_index`
before joining. -/
def topLevelIndexLines (P : Str → Str) (o : BookOutline) : List Str :=
  [List.replicate o.title.length '#', o.title, List.replicate o.title.length '#', str ""] ++
  (if ¬ pyStrip o.introduction_content.content = [] then
    [convertContentPure P (filterChapterHeading o.introduction_content.content o.title), str ""]
   else []) ++
  [str "Table of Contents", str "================", str "", str ".. toctree::",
   str "   :maxdepth: 2", str "   :numbered:", str ""] ++
  o.chapters.map (fun ch => str "   " ++ ch.folder_name ++ str "/index") ++
  [str ""]

/-- The `content` list of `OutlineConverter._generate_chapter_index`
before joining: cleaned underlined title, optional converted chapter
content, and — when the chapter has sections with filenames — a hidden
toctree listing exactly those filenames in list order. -/
def chapterIndexLines (P : Str → Str) (ch : Chapter) : List Str :=
  let cleanTitle := getCleanChapterTitle ch
  [cleanTitle, List.replicate cleanTitle.length '=', str ""] ++
  (if ¬ pyStrip ch.content.content = [] then
    [convertContentPure P (filterChapterHeading ch.content.content ch.title), str ""]
   else []) ++
  (let actual := ch.sections.filter fun s => ¬ s.filename = []
   if ¬ actual = [] then
     [str ".. toctree::", str "   :maxdepth: 1", str "   :hidden:", str ""] ++
     actual.map (fun s => str "   " ++ s.filename) ++ [str ""]
   else [])

/-- The `content` list of `OutlineConverter._generate_section_file`
before joining. -/
def sectionFileLines (P : Str → Str) (sec : Section) : List Str :=
  let cleanTitle := getCleanSectionTitle sec.title
  [cleanTitle, List.replicate cleanTitle.length '-', str ""] ++
  (if ¬ pyStrip sec.content.content = [] then
    [convertContentPure P (filterSectionHeading sec.content.content sec.title)]
   else [])

/-- Path of a chapter's directory. -/
def chapterDirPath (o : BookOutline) (ch : Chapter) : Str :=
  o.output_dir ++ '/' :: ch.folder_name

/-- The write list a non-dry run performs, in order: top-level index, then
for each chapter its index followed by its section files. -/
def outlineWrites (P : Str → Str) (o : BookOutline) : List (Str × Str) :=
  (o.output_dir ++ str "/index.rst", joinNl (topLevelIndexLines P o)) ::
  o.chapters.flatMap (fun ch =>
    (chapterDirPath o ch ++ str "/index.rst", joinNl (chapterIndexLines P ch)) ::
    (ch.sections.filter fun s => ¬ s.filename = []).map
      (fun s => (chapterDirPath o ch ++ '/' :: s.filename, joinNl (sectionFileLines P s))))

/-- `OutlineConverter._generate_chapter_files` for one chapter: create the
chapter directory, write the chapter index, then each section file. -/
def generateChapterFiles (P : Str → Str) (o : BookOutline) (force dryRun : Bool)
    (ch : Chapter) (fs : FS) : FS × List WriteEvent :=
  let fs := fsMkdir fs (chapterDirPath o ch)
  let s1 := backupAndWriteFile fs (chapterDirPath o ch ++ str "/index.rst")
    (joinNl (chapterIndexLines P ch)) force dryRun
  let s2 := runWrites force dryRun s1.1
    ((ch.sections.filter fun s => ¬ s.filename = []).map
      (fun s => (chapterDirPath o ch ++ '/' :: s.filename, joinNl (sectionFileLines P s))))
  (s2.1, s1.2 ++ s2.2)

/-- `OutlineConverter.convert_outline`: a dry run only prints the plan and
returns; otherwise create the output directory (failing when it exists
and `force` is not set), write the top-level index, then generate every
chapter's files in document order. -/
def convertOutline (P : Str → Str) (o : BookOutline) (force dryRun : Bool)
    (fs : FS) : Except Str (FS × List WriteEvent) :=
  if dryRun then .ok (fs, [])
  else if fs.dirs.contains o.output_dir ∧ ¬ force then
    .error (str "Output directory already exists. Use --force to overwrite.")
  else
    let fs := fsMkdir fs o.output_dir
    let s1 := backupAndWriteFile fs (o.output_dir ++ str "/index.rst")
      (joinNl (topLevelIndexLines P o)) force dryRun
    let s2 := o.chapters.foldl
      (fun (acc : FS × List WriteEvent) ch =>
        let r := generateChapterFiles P o force dryRun ch acc.1
        (r.1, acc.2 ++ r.2))
      (s1.1, s1.2)
    .ok s2

/-! ## Marko AST parser (`marko_outline_parser.py`)

The external `marko` library turns raw markdown into a list of top-level
block elements; that list is the input here.  `MBlock.heading` carries
the text `_extract_heading_text` would produce, and the
`MarkdownRenderer` used by `_extract_content_block` is the `render`
parameter. -/

/-- A top-level block of the marko document AST. -/
inductive MBlock where
  | heading (level : Nat) (text : Str)
  | other (text : Str)
deriving DecidableEq, Repr

/-- Level of a block; non-headings get level 0. -/
def mblockLevel : MBlock → Nat
  | .heading lvl _ => lvl
  | .other _ => 0

/-- `MarkoContentBlock`. -/
structure MContentBlock where
  content : Str
  start_line : Nat
  end_line : Nat
deriving DecidableEq, Repr

/-- `MarkoSection` (`section_type` is `"numbered"` for every section the
parser stores). -/
structure MSection where
  title : Str
  number : Str
  content : MContentBlock
  filename : Str
  section_type : Str
deriving DecidableEq, Repr

/-- `MarkoChapter`. -/
structure MChapter where
  title : Str
  heading_type : HeadingType
  folder_name : Str
  content : MContentBlock
  sections : List MSection
deriving DecidableEq, Repr

/-- Slice of the block list. -/
def mSlice (children : List MBlock) (a b : Nat) : List MBlock :=
  (children.drop a).take (b - a)

/-- `MarkoOutlineParser._extract_content_block` with the renderer
abstracted. -/
def extractMContentBlock (render : List MBlock → Str) (children : List MBlock)
    (start_idx end_idx : Nat) : MContentBlock :=
  if start_idx ≥ end_idx then ⟨[], start_idx + 1, end_idx⟩
  else ⟨render (mSlice children start_idx end_idx), start_idx + 1, end_idx⟩

/-- `MarkoOutlineParser._parse_chapter_heading` (same classification as
the line parser, except that the fallback folder is `chapter_unknown`). -/
def parseMChapterHeading (text : Str) (idx : Nat) : MChapter :=
  if strStartsWith text (str "Prologue") then
    ⟨text, .prologue, str "prologue", ⟨[], idx + 1, idx + 1⟩, []⟩
  else if strStartsWith text (str "Introduction") then
    ⟨text, .introduction, str "introduction", ⟨[], idx + 1, idx + 1⟩, []⟩
  else
    match matchChapterNumber text with
    | some n => ⟨text, .chapter, str "chapter" ++ natToStr n, ⟨[], idx + 1, idx + 1⟩, []⟩
    | none =>
      if strStartsWith text (str "Appendix ") then
        let ap := text.drop 9
        let baseLetter :=
          if ap.any (fun c => c = ':') then pyStrip (ap.takeWhile (fun c => ¬ c = ':'))
          else if ap.any (fun c => c = '.') then pyStrip (ap.takeWhile (fun c => ¬ c = '.'))
          else pyStrip ap
        let folder :=
          match baseLetter with
          | [c] => if isAlphaChar c then str "appendix" ++ [c] else str "appendix_unknown"
          | _ => str "appendix_unknown"
        ⟨text, .appendix, folder, ⟨[], idx + 1, idx + 1⟩, []⟩
      else
        ⟨text, .chapter, str "chapter_unknown", ⟨[], idx + 1, idx + 1⟩, []⟩

/-- `MarkoOutlineParser._process_section_heading`: only a heading matching
the section pattern becomes a section; the first one also extracts the
chapter content accumulated so far. -/
def processMSectionHeading (render : List MBlock → Str) (text : Str) (idx : Nat)
    (children : List MBlock) (ch : MChapter) : MChapter :=
  match matchSectionHeading text with
  | some (number, g2) =>
    let title := pyStrip g2
    let sec : MSection :=
      { title := title, number := number, content := ⟨[], idx + 1, idx + 1⟩
        filename := sanitizeFilename title, section_type := str "numbered" }
    let ch :=
      if ¬ (ch.sections.any fun s => s.section_type = str "numbered") then
        { ch with content := extractMContentBlock render children (ch.content.start_line - 1) idx }
      else ch
    { ch with sections := ch.sections ++ [sec] }
  | none => ch

/-- `MarkoOutlineParser._finalize_chapter`. -/
def finalizeMChapter (render : List MBlock → Str) (children : List MBlock)
    (ch : MChapter) (end_idx : Nat) : MChapter :=
  if ch.sections = [] then
    { ch with content := extractMContentBlock render children (ch.content.start_line - 1) end_idx }
  else
    { ch with sections := ch.sections.map fun sec =>
        if sec.content.start_line = sec.content.end_line then
          let stop :=
            findFromAux
              (fun b => decide (1 ≤ mblockLevel b) && decide (mblockLevel b ≤ 3))
              (mSlice children sec.content.start_line end_idx)
              sec.content.start_line end_idx
          { sec with content := extractMContentBlock render children (sec.content.start_line - 1) stop }
        else sec }

/-- The chapter loop of `MarkoOutlineParser._parse_structure`. -/
def markoChapterLoop (render : List MBlock → Str) (children : List MBlock) :
    List MChapter :=
  let st := children.enum.foldl
    (fun (acc : List MChapter × Option MChapter) p =>
      match p.2 with
      | .heading 2 text =>
        match acc.2 with
        | some ch => (acc.1 ++ [finalizeMChapter render children ch p.1],
                      some (parseMChapterHeading text p.1))
        | none => (acc.1, some (parseMChapterHeading text p.1))
      | .heading 3 text =>
        match acc.2 with
        | some ch => (acc.1, some (processMSectionHeading render text p.1 children ch))
        | none => acc
      | _ => acc)
    ([], none)
  match st.2 with
  | some ch => st.1 ++ [finalizeMChapter render children ch children.length]
  | none => st.1

/-- `MarkoOutlineParser._parse_structure`: fails with the source's
`ValueError` message when the document has no level-1 heading (or when
its first level-1 heading has empty text). -/
def markoParseStructure (render : List MBlock → Str) (children : List MBlock) :
    Except Str (Str × MContentBlock × List MChapter) :=
  let firstH1 := children.enum.find? fun p => mblockLevel p.2 = 1
  let title := match firstH1 with
    | some (_, .heading _ t) => t
    | _ => []
  let titleEndIdx := match firstH1 with
    | some (i, _) => i
    | none => 0
  if title = [] then .error (str "Document must have a title (H1 heading)")
  else
    let introStart := titleEndIdx + 1
    let introEnd :=
      findFromAux (fun b => mblockLevel b = 2)
        (mSlice children introStart children.length) introStart children.length
    let intro := extractMContentBlock render children introStart introEnd
    .ok (title, intro, markoChapterLoop render children)

/-! ## Specification-side definitions and concrete inputs for the claims -/

/-- Does the string start with a whitespace character? -/
def headIsSpace : Str → Prop
  | [] => False
  | c :: _ => isSpaceChar c = true

/-- Spec-side predicate: the text begins with `digits.digits` or
`UpperLetter.digits`, not immediately followed by `.digit`, and followed
by at least one whitespace character (existence of such a decomposition;
whitespace next forces both digit runs maximal). -/
def specTwoLevelWs (text : Str) : Prop :=
  (∃ d1 d2 rest, pyStrip text = d1 ++ '.' :: (d2 ++ rest) ∧ ¬ d1 = [] ∧
    (∀ c ∈ d1, isDigitChar c = true) ∧ ¬ d2 = [] ∧
    (∀ c ∈ d2, isDigitChar c = true) ∧ headIsSpace rest) ∨
  (∃ u d2 rest, pyStrip text = u :: '.' :: (d2 ++ rest) ∧ isUpperChar u = true ∧
    ¬ d2 = [] ∧ (∀ c ∈ d2, isDigitChar c = true) ∧ headIsSpace rest)

/-- The claim's own wording for C1, with no whitespace requirement: the
text begins with `digits.digits` or `UpperLetter.digits` (digit runs
maximal) not immediately followed by a further `.digit`. -/
def claimTwoLevelNumberStart (text : Str) : Bool :=
  match matchNumberPart text with
  | some (_, rest) => ¬ startsWithDotDigit rest
  | none => false

/-- The chapter produced by absorbing a content heading at `lineNum`, as
performed by `_handle_content_heading`: the block from the heading to the
next numbered level-3 heading (or end of file) is appended to the chapter
content after a blank line, or becomes the content when none existed. -/
def absorbedChapter (lines : List Str) (lineNum : Nat) (ch : Chapter) : Chapter :=
  let blk := extractContentBlock lines lineNum (findNextHeadingEnd lines lineNum)
  if ¬ ch.content.content = [] then
    let cb := { ch.content with content := ch.content.content ++ str "\n\n" ++ blk.content }
    { ch with content := cb }
  else { ch with content := blk }

/-- Python `Path.stem` for the generated filenames (which always end in
the four characters `.rst`, the only dot the sanitizer can produce). -/
def fileStem (f : Str) : Str := f.take (f.length - 4)

/-- Lowercased word character or hyphen: the character set of a sanitized
filename base. -/
def goodChar (c : Char) : Bool := (isWordChar c && ¬ isUpperChar c) || c = '-'

/-- No two adjacent hyphens. -/
def noTwoHyphens (l : Str) : Prop :=
  List.Chain' (fun a b => ¬ (a = '-' ∧ b = '-')) l

/-- An identity stand-in for the external pandoc executable; the concrete
documents below never reach pandoc (their filtered content is blank). -/
def idStr : Str → Str := fun s => s

/-- A renderer stand-in for marko's `MarkdownRenderer`. -/
def constRender : List MBlock → Str := fun _ => []

/-- Is the event a backup? -/
def isBackupEvent : WriteEvent → Bool
  | .backedUp _ => true
  | _ => false

/-- C2 counterexample document: a sectionless chapter whose content
heading is followed by another chapter before the next numbered
section. -/
def c2Lines : List Str :=
  [str "# T\n", str "## Chapter 1: A\n", str "### Notes\n", str "body\n",
   str "## Chapter 2: B\n", str "### 2.1 S\n", str "stuff\n"]

/-- The parser state right after the title and first chapter heading of
`c2Lines` have been processed. -/
def c2StateBefore : ParsingState :=
  processHeading (str "## Chapter 1: A\n") 2 c2Lines
    (processHeading (str "# T\n") 1 c2Lines {})

/-- The parser state after the content heading on line 3 of `c2Lines` is
processed. -/
def c2StateAfter : ParsingState :=
  processHeading (str "### Notes\n") 3 c2Lines c2StateBefore

/-- C4 counterexample document: two numbered sections whose titles
sanitize to the same filename `setup.rst`. -/
def c4Lines : List Str :=
  [str "# T\n", str "## Chapter 1: C\n", str "### 1.1 Setup\n", str "### 1.2 SETUP\n"]

/-- The outline parsed from `c4Lines` with output directory `out`
(mirroring `parse_file` with an explicit output directory). -/
def c4Outline : BookOutline :=
  let r := parseStructure c4Lines
  ⟨r.1, r.2.1, r.2.2, str "out"⟩

/-- First conversion run on `c4Lines` from an empty file system with
`force=True`. -/
def c4FirstRun : Except Str (FS × List WriteEvent) :=
  convertOutline idStr c4Outline true false emptyFS

/-- The write events of the second, identical conversion run. -/
def c4SecondEvents : List WriteEvent :=
  match c4FirstRun with
  | .ok r =>
    match convertOutline idStr c4Outline true false r.1 with
    | .ok r2 => r2.2
    | .error _ => []
  | .error _ => []

/-- Witness document for the amended C2 statement. -/
def c2wLines : List Str :=
  [str "## Chapter 1: W\n", str "### Note\n", str "text\n"]

/-- The chapter opened by the first line of `c2wLines`. -/
def c2wChapter : Chapter := parseChapterHeading (str "Chapter 1: W") 1

/-- The parser state with `c2wChapter` freshly opened. -/
def c2wState : ParsingState := processHeading (str "## Chapter 1: W\n") 1 c2wLines {}

/-- C7 counterexample document: numbered sections appearing out of
numbering order (validation does not check ordering). -/
def c7Lines : List Str :=
  [str "# T\n", str "## Chapter 1: C\n", str "### 1.2 B\n", str "### 1.1 A\n"]

/-- The single chapter parsed from `c7Lines`. -/
def c7Chapter : Chapter := ((parseStructure c7Lines).2.2).headD defaultChapter

/-- Witness chapter for the amended C7 statement: one numbered section and
one content heading (empty filename). -/
def c7wChapter : Chapter :=
  { title := str "Chapter 2: W", heading_type := .chapter
    folder_name := str "chapter2", content := ⟨[], 2, 2⟩
    sections := [⟨str "Alpha", str "2.1", ⟨[], 3, 3⟩, str "alpha.rst"⟩,
                 ⟨str "Note", [], ⟨[], 4, 4⟩, []⟩] }

/-! ## General helper lemmas -/

/-- A successful `get?` produces a member of `enumFrom`. -/
theorem get?_mem_enumFrom {α : Type} :
    ∀ (xs : List α) (n k : Nat) (x : α), xs.get? k = some x →
      (n + k, x) ∈ xs.enumFrom n := by
  intro xs
  induction xs with
  | nil => intro n k x h; simp at h
  | cons y ys ih =>
    intro n k x h
    cases k with
    | zero => simp_all
    | succ k =>
      have := ih (n + 1) k x (by simpa using h)
      simpa [Nat.add_comm, Nat.add_assoc, Nat.add_left_comm] using this

/-- A successful `get?` produces a member of `enum`. -/
theorem get?_mem_enum {α : Type} (xs : List α) (k : Nat) (x : α)
    (h : xs.get? k = some x) : (k, x) ∈ xs.enum := by
  simpa using get?_mem_enumFrom xs 0 k x h

/-- Everything starts with the empty string. -/
theorem strStartsWith_nil (x : Str) : strStartsWith x [] = true := by
  cases x <;> rfl

/-- Everything contains the empty string. -/
theorem strContains_nil (x : Str) : strContains x [] = true := by
  cases x with
  | nil => rfl
  | cons c cs => simp [strContains, strStartsWith_nil]

/-- A list starts with itself (followed by anything). -/
theorem strStartsWith_append_self : ∀ (b c : Str), strStartsWith (b ++ c) b = true := by
  intro b
  induction b with
  | nil => intro c; exact strStartsWith_nil _
  | cons x xs ih => intro c; simp [strStartsWith, ih]

/-- A middle segment is always found by `strContains`. -/
theorem strContains_middle : ∀ (a b c : Str), strContains (a ++ (b ++ c)) b = true := by
  intro a
  induction a with
  | nil =>
    intro b c
    cases b with
    | nil => exact strContains_nil _
    | cons x xs =>
      have h := strStartsWith_append_self (x :: xs) c
      simp only [List.nil_append, List.cons_append] at h ⊢
      simp [strContains, h]
  | cons y ys ih =>
    intro b c
    simp only [List.cons_append, strContains, Bool.or_eq_true]
    exact Or.inr (ih b c)

/-! ## C5: dry-run purity -/

/-- C5 (confirmed): with `dry_run=true`, `convert_outline` returns before
touching the model file system: no directory is created, no file written,
no backup made, whatever the outline, pandoc behavior and `force` flag.
(The Marko-based `MarkoOutlineConverter.convert_outline` guards its body
with the same `if self.dry_run: ... return`.) -/
theorem dryRunLeavesFilesystemUntouched (P : Str → Str) (o : BookOutline)
    (force : Bool) (fs : FS) :
    convertOutline P o force true fs = .ok (fs, []) := by
  simp [convertOutline]

/-! ## C10: validation result partitioning -/

/-- C10 (confirmed): every `ValidationResult` built by `validate_file` —
through `mkValidationResult` on the collected diagnostics, or through the
exception fallback — keeps errors and warnings partitioned by severity,
and `is_valid` holds exactly when the error list is empty. -/
theorem validationResultPartitioned (es : List ValidationError) (msg : Str) :
    ((∀ e ∈ (mkValidationResult es).errors, e.severity = str "error") ∧
     (∀ e ∈ (mkValidationResult es).warnings, e.severity = str "warning") ∧
     ((mkValidationResult es).is_valid = true ↔ (mkValidationResult es).errors = [])) ∧
    ((∀ e ∈ (fallbackValidationResult msg).errors, e.severity = str "error") ∧
     (∀ e ∈ (fallbackValidationResult msg).warnings, e.severity = str "warning") ∧
     ((fallbackValidationResult msg).is_valid = true ↔
       (fallbackValidationResult msg).errors = [])) := by
  refine ⟨⟨?_, ?_, ?_⟩, ?_⟩
  · intro e he
    exact of_decide_eq_true (List.mem_filter.mp he).2
  · intro e he
    exact of_decide_eq_true (List.mem_filter.mp he).2
  · simp [mkValidationResult, List.length_eq_zero]
  · refine ⟨?_, ?_, ?_⟩ <;> simp [fallbackValidationResult]

/-- Witness for C10 at a concrete diagnostic list. -/
theorem validationResultPartitioned_witness :
    (⟨3, str "boom", str "error"⟩ : ValidationError) ∈
        (mkValidationResult [⟨3, str "boom", str "error"⟩]).errors ∧
    (⟨3, str "boom", str "error"⟩ : ValidationError).severity = str "error" := by
  have h := (validationResultPartitioned [⟨3, str "boom", str "error"⟩] (str "m")).1.1
  refine ⟨by decide, h ⟨3, str "boom", str "error"⟩ (by decide)⟩

/-! ## C3: three-level numbering is rejected -/

/-- C3 (confirmed): whenever some line of the document is a heading marker
followed by a three-level numeric (`d.d.d`) or appendix (`U.d.d`)
numbering, `validate_file` — whatever its AST-based structure check
contributes — returns a result that is invalid and contains an
error-severity entry whose message contains the exact matched numbering
and whose position is the 1-indexed number of that line. -/
theorem threeLevelNumberingRejected (contentLines : List Str)
    (structureErrors : List ValidationError) (k : Nat) (line num : Str)
    (hline : contentLines.get? k = some line)
    (hmatch : matchDeepNumericLine line = some num ∨
              matchDeepAppendixLine line = some num) :
    (validateContent contentLines structureErrors).is_valid = false ∧
    ∃ e ∈ (validateContent contentLines structureErrors).errors,
      strContains e.message num = true ∧ e.line_number = k + 1 := by
  have hmem : ∃ e ∈ checkBasicSyntax contentLines,
      strContains e.message num = true ∧ e.line_number = k + 1 ∧
      e.severity = str "error" := by
    rcases hmatch with h | h
    · refine ⟨deepNumericError (k + 1) num, ?_, ?_, rfl, rfl⟩
      · apply List.mem_append_left
        exact List.mem_filterMap.mpr ⟨(k, line), get?_mem_enum _ _ _ hline, by simp [h]⟩
      · show strContains (str "Section numbering '" ++ num ++
          str "' exceeds maximum of two levels. Do not number section headings within chapters.'") num = true
        have := strContains_middle (str "Section numbering '") num
          (str "' exceeds maximum of two levels. Do not number section headings within chapters.'")
        simpa [List.append_assoc] using this
    · refine ⟨deepAppendixError (k + 1) num, ?_, ?_, rfl, rfl⟩
      · apply List.mem_append_right
        exact List.mem_filterMap.mpr ⟨(k, line), get?_mem_enum _ _ _ hline, by simp [h]⟩
      · show strContains (str "Appendix section numbering '" ++ num ++
          str "' exceeds maximum of two levels. Use format 'X.Y' instead of 'X.Y.Z'") num = true
        have := strContains_middle (str "Appendix section numbering '") num
          (str "' exceeds maximum of two levels. Use format 'X.Y' instead of 'X.Y.Z'")
        simpa [List.append_assoc] using this
  rcases hmem with ⟨e, hmem, hcont, hln, hsev⟩
  have hmemAll : e ∈ checkBasicSyntax contentLines ++ structureErrors :=
    List.mem_append_left _ hmem
  have hfilter : e ∈ (checkBasicSyntax contentLines ++ structureErrors).filter
      (fun e => e.severity = str "error") :=
    List.mem_filter.mpr ⟨hmemAll, by simp [hsev]⟩
  constructor
  · apply Bool.eq_false_iff.mpr
    intro hb
    simp only [validateContent, mkValidationResult] at hb
    have h0 : ((checkBasicSyntax contentLines ++ structureErrors).filter
        (fun e => decide (e.severity = str "error"))).length = 0 := by
      simpa using hb
    have hnil := List.length_eq_zero.mp h0
    rw [hnil] at hfilter
    exact List.not_mem_nil _ hfilter
  · exact ⟨e, hfilter, hcont, hln⟩

/-- Witness for C3: a concrete document with `### 1.1.1 Deep` on line 2. -/
theorem threeLevelNumberingRejected_witness :
    ([str "# T", str "### 1.1.1 Deep"].get? 1 = some (str "### 1.1.1 Deep")) ∧
    (validateContent [str "# T", str "### 1.1.1 Deep"] []).is_valid = false ∧
    ∃ e ∈ (validateContent [str "# T", str "### 1.1.1 Deep"] []).errors,
      strContains e.message (str "1.1.1") = true ∧ e.line_number = 2 :=
  ⟨by decide,
   threeLevelNumberingRejected [str "# T", str "### 1.1.1 Deep"] [] 1
     (str "### 1.1.1 Deep") (str "1.1.1") (by decide) (Or.inl (by decide))⟩

/-! ## Concrete counterexamples -/

/-- C1 counterexample: the heading text `1.2` begins with `digits.digits`
not followed by a further `.digit` — by the claim it should be classified
Numbered with number `1.2` — yet the code classifies it as a
ContentHeading (empty filename and number), because the section pattern
additionally requires whitespace and a remainder after the number. -/
theorem sectionClassification_counterexample :
    claimTwoLevelNumberStart (str "1.2") = true ∧
    (parseSectionHeading (str "1.2") 1).filename = [] ∧
    (parseSectionHeading (str "1.2") 1).number = [] := by decide

/-- C2 counterexample: in `c2Lines`, chapter 1 has no sections when the
content heading `### Notes` on line 3 is processed, so the heading is
absorbed — but the absorbed block runs to the next *numbered* level-3
heading, `### 2.1 S` on line 6, sailing straight past the `## Chapter 2`
boundary on line 5; the claim's "up to the next numbered level-3 heading
or end of chapter" is violated because the absorbed chapter content
contains the following chapter's own heading line. -/
theorem contentHeadingAbsorption_counterexample :
    (c2StateBefore.current_chapter.getD defaultChapter).sections = [] ∧
    c2StateBefore.current_section = none ∧
    (c2StateAfter.current_chapter.getD defaultChapter).content.content =
      str "### Notes\nbody\n## Chapter 2: B\n" ∧
    strContains ((c2StateAfter.current_chapter.getD defaultChapter).content.content)
      (str "## Chapter 2: B") = true := by decide

/-- C6 counterexample: on a document with no level-1 heading the
line-based `OutlineParser._parse_structure` does not fail — it returns a
complete (title, introduction, chapters) triple with an empty title, from
which `parse_file` builds a `BookOutline`; the claim's "parsing fails
with a parse error; it does not return an outline" is false for this
parser. -/
theorem missingTitle_counterexample :
    parseStructure [str "hello world\n"] = ([], ⟨[], 0, 0⟩, []) := by decide

/-- C7 counterexample: `c7Lines` lists section `1.2 B` before `1.1 A`;
the generated chapter index lists `b.rst` before `a.rst` — document
order, not numbering order (numbering order would put `a.rst`, numbered
`1.1`, first). -/
theorem chapterTocOrder_counterexample :
    (c7Chapter.sections.map fun s => (s.number, s.filename)) =
      [(str "1.2", str "b.rst"), (str "1.1", str "a.rst")] ∧
    chapterIndexLines idStr c7Chapter =
      [str "C", str "=", str "", str "", str "",
       str ".. toctree::", str "   :maxdepth: 1", str "   :hidden:", str "",
       str "   b.rst", str "   a.rst", str ""] := by decide

/-- C4 counterexample: the two sections of `c4Lines` sanitize to the same
filename `setup.rst` with different generated contents, so the second of
two identical `force=True` conversion runs still backs up and rewrites
that file twice: the second run is not all-"unchanged" and creates
backups, contradicting the claim. -/
theorem idempotentSecondRun_counterexample :
    (c4SecondEvents.filter isBackupEvent).length = 2 ∧
    c4SecondEvents.any isBackupEvent = true := by decide

/-! ## C9: the pandoc cache -/

/-- A cache lookup that succeeds keeps succeeding after a new entry is
added in front. -/
theorem cacheLookup_cons_isSome {cache : List (Str × Str)} {a b k : Str}
    (h : (cacheLookup cache k).isSome = true) :
    (cacheLookup ((a, b) :: cache) k).isSome = true := by
  by_cases hak : a = k
  · simp [cacheLookup, List.find?_cons_of_pos, hak]
  · simpa [cacheLookup, List.find?_cons_of_neg, hak] using h

/-- A cache lookup that fails on a larger cache fails on the tail. -/
theorem cacheLookup_cons_none {cache : List (Str × Str)} {a b k : Str}
    (h : cacheLookup ((a, b) :: cache) k = none) :
    cacheLookup cache k = none := by
  by_cases hak : a = k
  · simp [cacheLookup, List.find?_cons_of_pos, hak] at h
  · simpa [cacheLookup, List.find?_cons_of_neg, hak] using h

/-- Core cache invariant: along any call sequence, the texts actually sent
to pandoc are pairwise distinct, were not in the starting cache, and are
never blank. -/
theorem runConversions_spec (P : Str → Str) :
    ∀ (texts : List Str) (cache : List (Str × Str)),
      ((runConversions P cache texts).2).Nodup ∧
      ∀ t ∈ (runConversions P cache texts).2,
        cacheLookup cache t = none ∧ ¬ pyStrip t = [] := by
  intro texts
  induction texts with
  | nil =>
    intro cache
    exact ⟨List.nodup_nil, by intro t ht; simp [runConversions] at ht⟩
  | cons md rest ih =>
    intro cache
    by_cases hblank : pyStrip md = []
    · have hstep : runConversions P cache (md :: rest) = runConversions P cache rest := by
        simp [runConversions, convertContentToRst, hblank]
      rw [hstep]; exact ih cache
    · cases hc : cacheLookup cache md with
      | some v =>
        have hstep : runConversions P cache (md :: rest) = runConversions P cache rest := by
          simp [runConversions, convertContentToRst, hblank, hc]
        rw [hstep]; exact ih cache
      | none =>
        have hstep : (runConversions P cache (md :: rest)).2 =
            md :: (runConversions P ((md, P md) :: cache) rest).2 := by
          simp [runConversions, convertContentToRst, hblank, hc]
        have ih' := ih ((md, P md) :: cache)
        constructor
        · rw [hstep]
          refine List.nodup_cons.mpr ⟨?_, ih'.1⟩
          intro hmem
          have := (ih'.2 md hmem).1
          simp [cacheLookup, List.find?_cons_of_pos] at this
        · intro t ht
          rw [hstep] at ht
          rcases List.mem_cons.mp ht with h | h
          · subst h; exact ⟨hc, hblank⟩
          · have := ih'.2 t h
            exact ⟨cacheLookup_cons_none this.1, this.2⟩

/-- The cache is never evicted: a cached key survives any further call
sequence. -/
theorem runConversions_preserves (P : Str → Str) :
    ∀ (texts : List Str) (cache : List (Str × Str)) (k : Str),
      (cacheLookup cache k).isSome = true →
      (cacheLookup (runConversions P cache texts).1 k).isSome = true := by
  intro texts
  induction texts with
  | nil => intro cache k h; simpa [runConversions] using h
  | cons md rest ih =>
    intro cache k h
    by_cases hblank : pyStrip md = []
    · have hstep : runConversions P cache (md :: rest) = runConversions P cache rest := by
        simp [runConversions, convertContentToRst, hblank]
      rw [hstep]; exact ih cache k h
    · cases hc : cacheLookup cache md with
      | some v =>
        have hstep : runConversions P cache (md :: rest) = runConversions P cache rest := by
          simp [runConversions, convertContentToRst, hblank, hc]
        rw [hstep]; exact ih cache k h
      | none =>
        have hstep : (runConversions P cache (md :: rest)).1 =
            (runConversions P ((md, P md) :: cache) rest).1 := by
          simp [runConversions, convertContentToRst, hblank, hc]
        rw [hstep]
        exact ih _ k (cacheLookup_cons_isSome h)

/-- C9 (confirmed): `OutlineConverter.__init__` — run once per top-level
conversion invocation, since each CLI command constructs a fresh
converter — starts with an empty cache, so nothing carries over between
runs; within a run, pandoc is invoked at most once per unique exact
source text (and never for blank text), repeats being served from the
exact-text-keyed cache; and the cache is never evicted during the run. -/
theorem pandocInvokedOncePerUniqueText :
    (∀ f d, (mkOutlineConverter f d).content_cache = []) ∧
    (∀ (P : Str → Str) (texts : List Str),
      ((runConversions P (mkOutlineConverter false false).content_cache texts).2).Nodup ∧
      ∀ t ∈ (runConversions P (mkOutlineConverter false false).content_cache texts).2,
        ¬ pyStrip t = []) ∧
    (∀ (P : Str → Str) (texts : List Str) (cache : List (Str × Str)) (k : Str),
      (cacheLookup cache k).isSome = true →
      (cacheLookup (runConversions P cache texts).1 k).isSome = true) := by
  refine ⟨fun _ _ => rfl, ?_, runConversions_preserves⟩
  intro P texts
  have h := runConversions_spec P texts []
  exact ⟨h.1, fun t ht => (h.2 t ht).2⟩

/-- Witness for C9 at a concrete call sequence and cache. -/
theorem pandocInvokedOncePerUniqueText_witness :
    ((runConversions idStr (mkOutlineConverter false false).content_cache
        [str "x", str "x", str "y"]).2).Nodup ∧
    (cacheLookup (runConversions idStr [(str "a", str "b")] [str "x"]).1
        (str "a")).isSome = true :=
  ⟨(pandocInvokedOncePerUniqueText.2.1 idStr [str "x", str "x", str "y"]).1,
   pandocInvokedOncePerUniqueText.2.2 idStr [str "x"] [(str "a", str "b")]
     (str "a") (by decide)⟩

/-! ## C4: idempotent second run (for distinct write paths) -/

/-- `backupFileIfExists` never touches the file map. -/
theorem backupFileIfExists_files (fs : FS) (p : Str) (d : Bool) :
    (backupFileIfExists fs p d).1.files = fs.files := by
  unfold backupFileIfExists
  cases h : fsGet fs p <;> simp [h]
  split <;> rfl

/-- `fsGet` only looks at the file map. -/
theorem fsGet_congr_files {fs fs' : FS} (h : fs.files = fs'.files) (p : Str) :
    fsGet fs p = fsGet fs' p := by
  simp [fsGet, h]

/-- Reading another path after a write is unaffected. -/
theorem fsGet_fsSet_ne {fs : FS} {p q : Str} (h : ¬ q = p) (c : Str) :
    fsGet (fsSet fs q c) p = fsGet fs p := by
  simp [fsGet, fsSet, List.find?_cons_of_neg, h]

/-- Reading the path just written yields the written content. -/
theorem fsGet_fsSet_self (fs : FS) (q c : Str) :
    fsGet (fsSet fs q c) q = some c := by
  simp [fsGet, fsSet, List.find?_cons_of_pos]

/-- When content differs, the non-dry write ends in `fsSet` over a state
with unchanged files. -/
theorem backupAndWriteFile_written (fs : FS) (p c : Str) (force : Bool)
    (hd : contentIsDifferent fs p c = true) :
    ∃ fs', (backupAndWriteFile fs p c force false).1 = fsSet fs' p c ∧
      fs'.files = fs.files := by
  by_cases hf : force = true ∧ (fsGet fs p).isSome = true
  · exact ⟨(backupFileIfExists fs p false).1,
      by simp [backupAndWriteFile, hd, hf],
      backupFileIfExists_files fs p false⟩
  · exact ⟨fs, by simp [backupAndWriteFile, hd, hf], rfl⟩

/-- A single non-dry write leaves other paths untouched. -/
theorem backupAndWriteFile_other {fs : FS} {p q : Str} (h : ¬ q = p)
    (c : Str) (force : Bool) :
    fsGet (backupAndWriteFile fs q c force false).1 p = fsGet fs p := by
  by_cases hd : contentIsDifferent fs q c
  · rcases backupAndWriteFile_written fs q c force hd with ⟨fs', heq, hfiles⟩
    rw [heq, fsGet_fsSet_ne h]
    exact fsGet_congr_files hfiles p
  · simp [backupAndWriteFile, hd]

/-- Unchanged content means the write is skipped entirely. -/
theorem backupAndWriteFile_unchanged {fs : FS} {p c : Str}
    (h : contentIsDifferent fs p c = false) (force : Bool) (d : Bool) :
    backupAndWriteFile fs p c force d = (fs, [.unchanged p]) := by
  simp [backupAndWriteFile, h]

/-- After a non-dry write the path holds content normalize-equal to the
proposed content. -/
theorem backupAndWriteFile_self (fs : FS) (p c : Str) (force : Bool) :
    ∃ v, fsGet (backupAndWriteFile fs p c force false).1 p = some v ∧
      normalizeContent v = normalizeContent c := by
  by_cases hd : contentIsDifferent fs p c
  · refine ⟨c, ?_, rfl⟩
    rcases backupAndWriteFile_written fs p c force hd with ⟨fs', heq, _⟩
    rw [heq]
    exact fsGet_fsSet_self _ _ _
  · rcases hg : fsGet fs p with _ | v
    · exact absurd (by simp [contentIsDifferent, hg]) hd
    · refine ⟨v, ?_, ?_⟩
      · rw [backupAndWriteFile_unchanged (by simpa using hd)]
        exact hg
      · have := hd
        simp [contentIsDifferent, hg] at this
        exact this

/-- Writes to other paths do not disturb a path's content. -/
theorem runWrites_other (force : Bool) :
    ∀ (ws : List (Str × Str)) (fs : FS) (p : Str),
      (∀ w ∈ ws, ¬ w.1 = p) →
      fsGet (runWrites force false fs ws).1 p = fsGet fs p := by
  intro ws
  induction ws with
  | nil => intro fs p _; rfl
  | cons w rest ih =>
    intro fs p h
    cases w with
    | mk q c =>
      show fsGet (runWrites force false (backupAndWriteFile fs q c force false).1 rest).1 p = _
      rw [ih _ p (fun x hx => h x (List.mem_cons_of_mem _ hx))]
      exact backupAndWriteFile_other (h (q, c) (List.mem_cons_self _ _)) c force

/-- After one pass over a duplicate-free write list, every listed path
holds content normalize-equal to its proposed content. -/
theorem runWrites_establishes (force : Bool) :
    ∀ (ws : List (Str × Str)) (fs : FS),
      ((ws.map Prod.fst).Nodup) →
      ∀ w ∈ ws, ∃ v, fsGet (runWrites force false fs ws).1 w.1 = some v ∧
        normalizeContent v = normalizeContent w.2 := by
  intro ws
  induction ws with
  | nil => intro fs _ w hw; exact absurd hw (List.not_mem_nil w)
  | cons w0 rest ih =>
    intro fs hnd w hw
    have hnd' : ((rest.map Prod.fst).Nodup) := (List.nodup_cons.mp (by simpa using hnd)).2
    have hnotin : w0.1 ∉ rest.map Prod.fst := (List.nodup_cons.mp (by simpa using hnd)).1
    rcases List.mem_cons.mp hw with h | h
    · subst h
      cases w with
      | mk p c =>
        show ∃ v, fsGet (runWrites force false
            (backupAndWriteFile fs p c force false).1 rest).1 p = some v ∧ _
        rw [runWrites_other force rest _ p ?_]
        · exact backupAndWriteFile_self fs p c force
        · intro x hx hxp
          exact hnotin (by simpa [hxp] using List.mem_map_of_mem Prod.fst hx)
    · cases w0 with
      | mk q d =>
        exact ih (backupAndWriteFile fs q d force false).1 hnd' w h

/-- A pass over writes whose contents are already normalize-present is a
pure sequence of "unchanged" skips. -/
theorem runWrites_allUnchanged (force : Bool) :
    ∀ (ws : List (Str × Str)) (fs : FS),
      (∀ w ∈ ws, ∃ v, fsGet fs w.1 = some v ∧
        normalizeContent v = normalizeContent w.2) →
      runWrites force false fs ws = (fs, ws.map fun w => WriteEvent.unchanged w.1) := by
  intro ws
  induction ws with
  | nil => intro fs _; rfl
  | cons w0 rest ih =>
    intro fs h
    cases w0 with
    | mk p c =>
      rcases h (p, c) (List.mem_cons_self _ _) with ⟨v, hv, hnorm⟩
      have hdiff : contentIsDifferent fs p c = false := by
        simp [contentIsDifferent, hv, hnorm]
      show (let s1 := backupAndWriteFile fs p c force false
            let s2 := runWrites force false s1.1 rest
            (s2.1, s1.2 ++ s2.2)) = _
      rw [backupAndWriteFile_unchanged hdiff]
      simp only []
      rw [ih fs (fun x hx => h x (List.mem_cons_of_mem _ hx))]
      rfl

/-- C4 (corrected): provided the write list has pairwise distinct paths —
which the claim tacitly assumes but the code does not guarantee, see the
counterexample — running the write sequence a second time over the file
system produced by the first run changes nothing: every write is skipped
as "unchanged", no file content changes and no backup is created. -/
theorem idempotentSecondRun (force : Bool) (fs : FS) (ws : List (Str × Str))
    (hnd : (ws.map Prod.fst).Nodup) :
    runWrites force false (runWrites force false fs ws).1 ws =
      ((runWrites force false fs ws).1,
        ws.map fun w => WriteEvent.unchanged w.1) :=
  runWrites_allUnchanged force ws _ (runWrites_establishes force ws fs hnd)

/-- Witness for C4 at a concrete two-file write list. -/
theorem idempotentSecondRun_witness :
    (([(str "p", str "A"), (str "q", str "B")].map Prod.fst).Nodup) ∧
    runWrites true false
        (runWrites true false emptyFS [(str "p", str "A"), (str "q", str "B")]).1
        [(str "p", str "A"), (str "q", str "B")] =
      ((runWrites true false emptyFS [(str "p", str "A"), (str "q", str "B")]).1,
        [WriteEvent.unchanged (str "p"), WriteEvent.unchanged (str "q")]) :=
  ⟨by decide,
   idempotentSecondRun true emptyFS [(str "p", str "A"), (str "q", str "B")]
     (by decide)⟩

/-! ## C2: content-heading absorption -/

/-- Characterization of the scan `findFromAux cond (xs.drop i) i xs.length`:
it returns the least index `≥ i` whose element satisfies `cond`, or
`xs.length` when there is none. -/
theorem findFromAux_char {α : Type} (cond : α → Bool) (xs : List α) (i : Nat)
    (hi : i ≤ xs.length) :
    i ≤ findFromAux cond (xs.drop i) i xs.length ∧
    findFromAux cond (xs.drop i) i xs.length ≤ xs.length ∧
    (∀ j, i ≤ j → j < findFromAux cond (xs.drop i) i xs.length →
      ∀ x, xs.get? j = some x → cond x = false) ∧
    (findFromAux cond (xs.drop i) i xs.length < xs.length →
      ∀ x, xs.get? (findFromAux cond (xs.drop i) i xs.length) = some x →
        cond x = true) := by
  rcases Nat.eq_or_lt_of_le hi with heq | hlt
  · have hdrop : xs.drop i = [] := by
      apply List.drop_eq_nil_of_le; omega
    rw [hdrop]
    simp only [findFromAux]
    refine ⟨hi, Nat.le_refl _, ?_, ?_⟩
    · intro j h1 h2 x hx; omega
    · intro hlt2; omega
  · have hx : xs.get? i = some (xs.get ⟨i, hlt⟩) := List.get?_eq_get hlt
    have hdrop : xs.drop i = xs.get ⟨i, hlt⟩ :: xs.drop (i + 1) := by
      rw [List.drop_eq_getElem_cons hlt]; rfl
    rw [hdrop]
    simp only [findFromAux]
    by_cases hc : cond (xs.get ⟨i, hlt⟩) = true
    · rw [if_pos hc]
      refine ⟨Nat.le_refl _, Nat.le_of_lt hlt, ?_, ?_⟩
      · intro j h1 h2 x _; omega
      · intro _ x hx'
        rw [hx] at hx'
        cases hx'
        exact hc
    · rw [if_neg hc]
      have IH := findFromAux_char cond xs (i + 1) (by omega)
      refine ⟨by omega, IH.2.1, ?_, IH.2.2.2⟩
      intro j h1 h2 x hx'
      rcases Nat.eq_or_lt_of_le h1 with heq1 | h1'
      · subst heq1
        rw [hx] at hx'
        cases hx'
        exact Bool.eq_false_iff.mpr hc
      · exact IH.2.2.1 j h1' h2 x hx'
termination_by xs.length - i
decreasing_by simp_wf; omega

/-- C2 (corrected): while a chapter is open, a level-3 heading classified
as a ContentHeading (empty filename) is absorbed into the chapter's
content — the heading plus its trailing content, concatenated after any
existing chapter content with a blank-line separator — exactly when the
chapter has zero numbered sections so far (its section list is empty and
no numbered section is open).  Once a numbered section exists (already
finalized, or still open and therefore finalized first), the content
heading adds nothing to the chapter content and never enters the section
list.  The absorbed range runs from the heading to the next level-3
heading whose text starts with a two-level number at a word boundary —
three-level numberings included — or to the END OF FILE (not "end of
chapter": the scan of `_find_next_heading_end` skips level-2 headings);
the final conjunct characterizes that boundary as the least such line. -/
theorem contentHeadingAbsorption (lines : List Str) (text : Str) (lineNum : Nat)
    (st : ParsingState) (ch : Chapter)
    (hch : st.current_chapter = some ch)
    (hcontent : (parseSectionHeading text lineNum).filename = []) :
    (st.current_section = none → ch.sections = [] →
      processSectionHeading text lineNum lines st =
        { st with current_chapter := some (absorbedChapter lines lineNum ch)
                  current_section := none }) ∧
    (st.current_section = none → ¬ ch.sections = [] →
      processSectionHeading text lineNum lines st = st) ∧
    (∀ sec0, st.current_section = some sec0 →
      processSectionHeading text lineNum lines st =
        { st with
            current_chapter :=
              some { ch with sections := ch.sections ++
                      [{ sec0 with content :=
                          extractContentBlock lines st.section_content_start (lineNum - 1) }] }
            current_section := none }) ∧
    (lineNum ≤ lines.length →
      (lineNum ≤ findNextHeadingEnd lines lineNum ∧
       findNextHeadingEnd lines lineNum ≤ lines.length ∧
       (∀ j, lineNum ≤ j → j < findNextHeadingEnd lines lineNum →
         ∀ l, lines.get? j = some l → isNumberedH3Bound l = false) ∧
       (findNextHeadingEnd lines lineNum < lines.length →
         ∀ l, lines.get? (findNextHeadingEnd lines lineNum) = some l →
           isNumberedH3Bound l = true))) := by
  refine ⟨?_, ?_, ?_, ?_⟩
  · intro hs hsec
    simp [processSectionHeading, hs, hch, hcontent, hsec, handleContentHeading,
      absorbedChapter]
  · intro hs hsec
    simp [processSectionHeading, hs, hch, hcontent, hsec]
  · intro sec0 hs
    simp [processSectionHeading, hs, hch, hcontent, finalizeSection]
  · intro hle
    exact findFromAux_char isNumberedH3Bound lines lineNum hle

/-- Witness for C2: a fresh chapter with no sections absorbs the content
heading `Note`. -/
theorem contentHeadingAbsorption_witness :
    c2wState.current_section = none ∧ c2wChapter.sections = [] ∧
    processSectionHeading (str "Note") 2 c2wLines c2wState =
      { c2wState with current_chapter := some (absorbedChapter c2wLines 2 c2wChapter)
                      current_section := none } :=
  ⟨by decide, by decide,
   (contentHeadingAbsorption c2wLines (str "Note") 2 c2wState c2wChapter
     (by decide) (by decide)).1 (by decide) (by decide)⟩

/-! ## C7: the chapter toctree -/

/-- C7 (corrected): whenever a chapter has at least one section with a
non-empty filename, the generated chapter index contains a hidden
toctree block listing exactly the filenames of those sections — sections
with an empty filename (ContentHeadings) excluded — in the order of the
chapter's section list, i.e. DOCUMENT order, not numbering order (see the
counterexample for a chapter where the two differ). -/
theorem chapterTocListsSectionFiles (P : Str → Str) (ch : Chapter)
    (h : ¬ (ch.sections.filter fun s => ¬ s.filename = []) = []) :
    ∃ pre, chapterIndexLines P ch =
      pre ++ ([str ".. toctree::", str "   :maxdepth: 1", str "   :hidden:", str ""] ++
        (ch.sections.filter fun s => ¬ s.filename = []).map
          (fun s => str "   " ++ s.filename) ++ [str ""]) := by
  refine ⟨[getCleanChapterTitle ch,
    List.replicate (getCleanChapterTitle ch).length '=', str ""] ++
    (if ¬ pyStrip ch.content.content = [] then
      [convertContentPure P (filterChapterHeading ch.content.content ch.title), str ""]
     else []), ?_⟩
  simp only [chapterIndexLines]
  rw [if_pos h]

/-- Witness for C7: the toctree block of `c7wChapter` lists exactly
`alpha.rst` (the content heading `Note` is excluded). -/
theorem chapterTocListsSectionFiles_witness :
    (¬ (c7wChapter.sections.filter fun s => ¬ s.filename = []) = []) ∧
    ∃ pre, chapterIndexLines idStr c7wChapter =
      pre ++ ([str ".. toctree::", str "   :maxdepth: 1", str "   :hidden:", str ""] ++
        (c7wChapter.sections.filter fun s => ¬ s.filename = []).map
          (fun s => str "   " ++ s.filename) ++ [str ""]) :=
  ⟨by decide, chapterTocListsSectionFiles idStr c7wChapter (by decide)⟩

/-! ## C6: missing level-1 heading -/

/-- Membership in `enumFrom` projects to membership. -/
theorem snd_mem_of_mem_enumFrom {α : Type} :
    ∀ (xs : List α) (n : Nat) (p : Nat × α), p ∈ xs.enumFrom n → p.2 ∈ xs := by
  intro xs
  induction xs with
  | nil => intro n p h; simp at h
  | cons y ys ih =>
    intro n p h
    rcases List.mem_cons.mp h with h | h
    · subst h; exact List.mem_cons_self _ _
    · exact List.mem_cons_of_mem _ (ih (n + 1) p h)

/-- `finalizeSection` never touches the title. -/
theorem finalizeSection_title (lines : List Str) (st : ParsingState) (nl : Nat) :
    (finalizeSection lines st nl).title = st.title := by
  obtain ⟨t, a, b, c, cc, cs, d, e⟩ := st
  cases cc <;> cases cs <;> rfl

/-- `finalizeChapter` never touches the title. -/
theorem finalizeChapter_title (lines : List Str) (st : ParsingState) :
    (finalizeChapter lines st).title = st.title := by
  obtain ⟨t, a, b, c, cc, cs, d, e⟩ := st
  cases cc <;> cases cs <;>
    simp only [finalizeChapter, finalizeSection] <;>
    (repeat' split) <;> rfl

/-- `processSectionHeading` never touches the title. -/
theorem processSectionHeading_title (text : Str) (ln : Nat) (lines : List Str)
    (st : ParsingState) :
    (processSectionHeading text ln lines st).title = st.title := by
  obtain ⟨t, a, b, c, cc, cs, d, e⟩ := st
  cases cc <;> cases cs <;>
    simp only [processSectionHeading, finalizeSection, handleContentHeading,
      extractChapterContentBeforeSection] <;>
    (repeat' split) <;> rfl

/-- `processChapterHeading` never touches the title. -/
theorem processChapterHeading_title (text : Str) (ln : Nat) (lines : List Str)
    (st : ParsingState) :
    (processChapterHeading text ln lines st).title = st.title := by
  show (ParsingState.title _) = st.title
  simp only [processChapterHeading]
  split <;> simp [finalizeChapter_title]

/-- A non-level-1 heading line leaves the title unchanged. -/
theorem processHeading_title (line : Str) (ln : Nat) (lines : List Str)
    (st : ParsingState) (h : ¬ headingLevel line = 1) :
    (processHeading line ln lines st).title = st.title := by
  simp only [processHeading]
  rw [if_neg (by simp [h])]
  split
  · exact processChapterHeading_title _ _ _ _
  · split
    · exact processSectionHeading_title _ _ _ _
    · rfl

/-- `finalizeRemainingContent` never touches the title. -/
theorem finalizeRemainingContent_title (lines : List Str) (st : ParsingState) :
    (finalizeRemainingContent lines st).title = st.title := by
  obtain ⟨t, a, b, c, cc, cs, d, e⟩ := st
  cases cc <;> cases cs <;> rfl

/-- The parse loop never sets a title if no level-1 heading line exists. -/
theorem parseLoop_no_title (lines : List Str)
    (h : ∀ l ∈ lines, ¬ headingLevel l = 1) :
    (parseLoop lines).title = [] := by
  suffices hgen : ∀ (ps : List (Nat × Str)) (st : ParsingState),
      (∀ p ∈ ps, p.2 ∈ lines) → st.title = [] →
      (ps.foldl (fun st p =>
        if strStartsWith p.2 (str "#") then processHeading p.2 (p.1 + 1) lines st else st)
        st).title = [] by
    exact hgen lines.enum {} (fun p hp => snd_mem_of_mem_enumFrom lines 0 p hp) rfl
  intro ps
  induction ps with
  | nil => intro st _ hst; exact hst
  | cons p rest ih =>
    intro st hmem hst
    apply ih _ (fun q hq => hmem q (List.mem_cons_of_mem _ hq))
    show (if strStartsWith p.2 (str "#") = true then
        processHeading p.2 (p.1 + 1) lines st else st).title = []
    split
    · rw [processHeading_title _ _ _ _ (h p.2 (hmem p (List.mem_cons_self _ _)))]
      exact hst
    · exact hst

/-- C6 (corrected): on a document with no level-1 heading the two parsers
disagree with the claim's single behavior.  The AST-based
`MarkoOutlineParser._parse_structure` does fail with the parse error
naming the missing mandatory title heading; the line-based
`OutlineParser._parse_structure` does NOT fail — it returns a structure
triple whose title is empty (see the counterexample), and its callers
rely on prior validation to reject such documents. -/
theorem missingTitleBehavior :
    (∀ (render : List MBlock → Str) (children : List MBlock),
      (∀ b ∈ children, ¬ mblockLevel b = 1) →
      markoParseStructure render children =
        .error (str "Document must have a title (H1 heading)")) ∧
    (∀ lines : List Str, (∀ l ∈ lines, ¬ headingLevel l = 1) →
      (parseStructure lines).1 = []) := by
  constructor
  · intro render children h
    have hfind : children.enum.find? (fun p => mblockLevel p.2 = 1) = none := by
      apply List.find?_eq_none.mpr
      intro x hx
      simpa using h x.2 (snd_mem_of_mem_enumFrom children 0 x (by simpa using hx))
    simp [markoParseStructure, hfind]
  · intro lines h
    show (finalizeRemainingContent lines (parseLoop lines)).title = []
    rw [finalizeRemainingContent_title]
    exact parseLoop_no_title lines h

/-- Witness for C6 at concrete inputs without a level-1 heading. -/
theorem missingTitleBehavior_witness :
    markoParseStructure constRender [MBlock.heading 2 (str "Chapter 1: A")] =
      .error (str "Document must have a title (H1 heading)") ∧
    (parseStructure [str "## Chapter 1: A\n", str "body\n"]).1 = [] :=
  ⟨missingTitleBehavior.1 constRender [MBlock.heading 2 (str "Chapter 1: A")]
    (by decide),
   missingTitleBehavior.2 [str "## Chapter 1: A\n", str "body\n"] (by decide)⟩

/-! ## C1: numbered-section classification -/

/-- Splitting `takeWhile`/`dropWhile` at a known boundary. -/
theorem takeWhile_boundary {p : Char → Bool} :
    ∀ (a : Str) (x : Char) (r : Str), (∀ c ∈ a, p c = true) → p x = false →
      (a ++ x :: r).takeWhile p = a ∧ (a ++ x :: r).dropWhile p = x :: r := by
  intro a
  induction a with
  | nil =>
    intro x r _ hx
    constructor
    · simp [List.takeWhile_cons, hx]
    · simp [List.dropWhile_cons, hx]
  | cons c cs ih =>
    intro x r ha hx
    have hc : p c = true := ha c (List.mem_cons_self _ _)
    have := ih x r (fun d hd => ha d (List.mem_cons_of_mem _ hd)) hx
    constructor
    · simp only [List.cons_append, List.takeWhile_cons, hc, if_true, this.1]
    · simp only [List.cons_append, List.dropWhile_cons, hc, if_true, this.2]

/-- The head surviving a `dropWhile` fails the predicate. -/
theorem dropWhile_head_false {p : Char → Bool} :
    ∀ (l : Str) (c : Char) (cs : Str), l.dropWhile p = c :: cs → p c = false := by
  intro l
  induction l with
  | nil => intro c cs h; simp at h
  | cons a t ih =>
    intro c cs h
    by_cases ha : p a = true
    · exact ih c cs (by simpa [List.dropWhile_cons, ha] using h)
    · rw [List.dropWhile_cons, if_neg (by simp [ha])] at h
      cases h
      simpa using ha

/-- `dropWhile` is idempotent. -/
theorem dropWhile_idem {p : Char → Bool} (l : Str) :
    (l.dropWhile p).dropWhile p = l.dropWhile p := by
  cases hd : l.dropWhile p with
  | nil => rfl
  | cons c cs =>
    rw [List.dropWhile_cons, if_neg (by simp [dropWhile_head_false l c cs hd])]

/-- Dropping a trailing run that is absent does nothing. -/
theorem dropTrailing_of_getLast {p : Char → Bool} (l : Str) (c : Char)
    (hl : l.getLast? = some c) (hc : p c = false) : dropTrailing p l = l := by
  have hrev : l.reverse.head? = some c := by rw [List.head?_reverse]; exact hl
  cases hr : l.reverse with
  | nil => simp [hr] at hrev
  | cons a t =>
    rw [hr] at hrev
    cases hrev
    unfold dropTrailing
    rw [hr, List.dropWhile_cons, if_neg (by simp [hc]), ← hr, List.reverse_reverse]

/-- The last character of a stripped string is not whitespace. -/
theorem pyStrip_getLast_not_space (l : Str) (c : Char)
    (h : (pyStrip l).getLast? = some c) : isSpaceChar c = false := by
  unfold pyStrip dropTrailing at h
  rw [List.getLast?_reverse] at h
  cases hv : ((l.dropWhile isSpaceChar).reverse.dropWhile isSpaceChar) with
  | nil => rw [hv] at h; simp at h
  | cons a t =>
    rw [hv] at h
    cases h
    exact dropWhile_head_false _ _ _ hv

/-- A string whose last character fails `isSpaceChar` strips to itself
from the right, and in particular `pyStrip` keeps it non-empty. -/
theorem pyStrip_of_getLast_not_space (l : Str) (c : Char)
    (hl : l.getLast? = some c) (hc : isSpaceChar c = false) :
    pyStrip l = l.dropWhile isSpaceChar ∧ ¬ pyStrip l = [] := by
  have hne : ¬ l.dropWhile isSpaceChar = [] := by
    intro hnil
    have hall := List.dropWhile_eq_nil_iff.mp hnil
    have := hall c (List.mem_of_mem_getLast? hl)
    simp [this] at hc
  have hlast : (l.dropWhile isSpaceChar).getLast? = some c := by
    have hsplit := List.takeWhile_append_dropWhile isSpaceChar l
    calc (l.dropWhile isSpaceChar).getLast?
        = (l.takeWhile isSpaceChar ++ l.dropWhile isSpaceChar).getLast? :=
          (List.getLast?_append_of_ne_nil _ hne).symm
      _ = l.getLast? := by rw [hsplit]
      _ = some c := hl
  have hdt := dropTrailing_of_getLast (l.dropWhile isSpaceChar) c hlast hc
  refine ⟨hdt, ?_⟩
  rw [pyStrip, hdt] at *
  exact hne

/-- Whitespace characters are not digits. -/
theorem space_not_digit (c : Char) (h : isSpaceChar c = true) :
    isDigitChar c = false := by
  simp only [isSpaceChar, Bool.or_eq_true, decide_eq_true_eq] at h
  simp only [isDigitChar, Bool.and_eq_true, decide_eq_true_eq,
    Bool.and_eq_false_iff, decide_eq_false_iff_not]
  omega

/-- Whitespace characters are not a dot. -/
theorem space_not_dot (c : Char) (h : isSpaceChar c = true) : ¬ c = '.' := by
  intro hc
  subst hc
  simp [isSpaceChar] at h

/-- Uppercase letters are not digits. -/
theorem upper_not_digit (c : Char) (h : isUpperChar c = true) :
    isDigitChar c = false := by
  simp only [isUpperChar, Bool.and_eq_true, decide_eq_true_eq] at h
  simp only [isDigitChar, Bool.and_eq_false_iff, decide_eq_false_iff_not]
  omega

/-- The lookahead body rejects anything that does not begin with a dot. -/
theorem startsWithDotDigit_cons_ne {w : Char} (r : Str) (h : ¬ w = '.') :
    startsWithDotDigit (w :: r) = false := by
  unfold startsWithDotDigit
  split
  · next heq =>
    have h1 : w = '.' := by simpa using congrArg List.head? heq
    exact absurd h1 h
  · rfl

/-- The section pattern on a numeric decomposition with whitespace after
the number. -/
theorem matchSectionHeading_num (d1 d2 : Str) (w : Char) (r' : Str)
    (hd1 : ¬ d1 = []) (hd1d : ∀ c ∈ d1, isDigitChar c = true)
    (hd2 : ¬ d2 = []) (hd2d : ∀ c ∈ d2, isDigitChar c = true)
    (hw : isSpaceChar w = true) :
    matchSectionHeading (d1 ++ '.' :: (d2 ++ w :: r')) =
      some (d1 ++ '.' :: d2, (w :: r').dropWhile isSpaceChar) := by
  have hdot : isDigitChar '.' = false := by decide
  have hb1 := takeWhile_boundary d1 '.' (d2 ++ w :: r') hd1d hdot
  have hb2 := takeWhile_boundary d2 w r' hd2d (space_not_digit w hw)
  cases d1 with
  | nil => exact absurd rfl hd1
  | cons a d1' =>
    have hda : isDigitChar a = true := hd1d a (List.mem_cons_self _ _)
    have ht : (a :: (d1' ++ '.' :: (d2 ++ w :: r'))).takeWhile isDigitChar
        = a :: d1' := by simpa using hb1.1
    have hd : (a :: (d1' ++ '.' :: (d2 ++ w :: r'))).dropWhile isDigitChar
        = '.' :: (d2 ++ w :: r') := by simpa using hb1.2
    have hmp : matchNumberPart ((a :: d1') ++ '.' :: (d2 ++ w :: r')) =
        some ((a :: d1') ++ '.' :: d2, w :: r') := by
      unfold matchNumberPart
      simp only [List.cons_append, hda, if_true, ht, hd, hb2.1, hb2.2]
      rw [if_neg hd2]
    unfold matchSectionHeading
    rw [hmp]
    simp only [startsWithDotDigit_cons_ne r' (space_not_dot w hw),
      Bool.false_eq_true, if_false, hw, if_true]

/-- The section pattern on a letter decomposition with whitespace after
the number. -/
theorem matchSectionHeading_letter (u : Char) (d2 : Str) (w : Char) (r' : Str)
    (hu : isUpperChar u = true)
    (hd2 : ¬ d2 = []) (hd2d : ∀ c ∈ d2, isDigitChar c = true)
    (hw : isSpaceChar w = true) :
    matchSectionHeading (u :: '.' :: (d2 ++ w :: r')) =
      some (u :: '.' :: d2, (w :: r').dropWhile isSpaceChar) := by
  have hb2 := takeWhile_boundary d2 w r' hd2d (space_not_digit w hw)
  have hmp : matchNumberPart (u :: '.' :: (d2 ++ w :: r')) =
      some (u :: '.' :: d2, w :: r') := by
    unfold matchNumberPart
    simp only [upper_not_digit u hu, Bool.false_eq_true, if_false, hu, if_true]
    simp only [hb2.1, hb2.2]
    rw [if_neg hd2]
  unfold matchSectionHeading
  rw [hmp]
  simp only [startsWithDotDigit_cons_ne r' (space_not_dot w hw),
    Bool.false_eq_true, if_false, hw, if_true]

/-- Analysis of a successful `matchNumberPart`. -/
theorem matchNumberPart_some (cs num rest : Str)
    (h : matchNumberPart cs = some (num, rest)) :
    (∃ d1 d2, cs = d1 ++ '.' :: (d2 ++ rest) ∧ ¬ d1 = [] ∧
      (∀ c ∈ d1, isDigitChar c = true) ∧ ¬ d2 = [] ∧
      (∀ c ∈ d2, isDigitChar c = true) ∧ num = d1 ++ '.' :: d2) ∨
    (∃ u d2, cs = u :: '.' :: (d2 ++ rest) ∧ isUpperChar u = true ∧ ¬ d2 = [] ∧
      (∀ c ∈ d2, isDigitChar c = true) ∧ num = u :: '.' :: d2) := by
  cases cs with
  | nil => simp [matchNumberPart] at h
  | cons c cs' =>
    by_cases hc : isDigitChar c = true
    · left
      rw [matchNumberPart, if_pos hc] at h
      split at h
      · next r2 heq =>
        by_cases hd2 : r2.takeWhile isDigitChar = []
        · rw [if_pos hd2] at h; exact absurd h (by simp)
        · rw [if_neg hd2] at h
          injection h with h
          injection h with hnum hrest
          refine ⟨(c :: cs').takeWhile isDigitChar, r2.takeWhile isDigitChar,
            ?_, ?_, ?_, hd2, ?_, hnum.symm⟩
          · conv_lhs => rw [← List.takeWhile_append_dropWhile isDigitChar (c :: cs'), heq]
            rw [← hrest, List.takeWhile_append_dropWhile]
          · simp [List.takeWhile_cons, hc]
          · intro d hd; exact List.mem_takeWhile_imp hd
          · intro d hd; exact List.mem_takeWhile_imp hd
      · exact absurd h (by simp)
    · by_cases hu : isUpperChar c = true
      · right
        rw [matchNumberPart, if_neg (by simp [hc]), if_pos hu] at h
        split at h
        · next u' r2 heq =>
          have h1 : c = u' := by simpa using congrArg List.head? heq
          have h2 : cs' = '.' :: r2 := by simpa using congrArg List.tail heq
          by_cases hd2 : r2.takeWhile isDigitChar = []
          · rw [if_pos hd2] at h; exact absurd h (by simp)
          · rw [if_neg hd2] at h
            injection h with h
            injection h with hnum hrest
            rw [← h1] at hnum
            refine ⟨c, r2.takeWhile isDigitChar, ?_, hu, hd2, ?_, hnum.symm⟩
            · rw [h2, ← hrest]
              rw [show r2.takeWhile isDigitChar ++ r2.dropWhile isDigitChar = r2
                from List.takeWhile_append_dropWhile isDigitChar r2]
            · intro d hd; exact List.mem_takeWhile_imp hd
        · exact absurd h (by simp)
      · rw [matchNumberPart, if_neg (by simp [hc]), if_neg (by simp [hu])] at h
        exact absurd h (by simp)

/-- A successful section-pattern match forces the spec-side
decomposition. -/
theorem spec_of_matchSectionHeading (text num g2 : Str)
    (h : matchSectionHeading (pyStrip text) = some (num, g2)) :
    specTwoLevelWs text := by
  unfold matchSectionHeading at h
  split at h
  · exact absurd h (by simp)
  · next num0 rest0 hmp =>
    by_cases hdd : startsWithDotDigit rest0 = true
    · rw [if_pos hdd] at h; exact absurd h (by simp)
    · rw [if_neg hdd] at h
      split at h
      · next w r' =>
        by_cases hw : isSpaceChar w = true
        · rcases matchNumberPart_some _ _ _ hmp with
            ⟨d1, d2, hcs, h1, h2, h3, h4, _⟩ | ⟨u, d2, hcs, h1, h2, h3, _⟩
          · exact Or.inl ⟨d1, d2, w :: r', hcs, h1, h2, h3, h4, hw⟩
          · exact Or.inr ⟨u, d2, w :: r', hcs, h1, h2, h3, hw⟩
        · rw [if_neg (by simp [hw])] at h; exact absurd h (by simp)
      · exact absurd h (by simp)

/-- The sanitizer never returns an empty filename. -/
theorem sanitizeFilename_ne_nil (t : Str) : ¬ sanitizeFilename t = [] := by
  unfold sanitizeFilename
  intro h
  have := (List.append_eq_nil.mp h).2
  simp [str] at this

/-- When the stripped text decomposes as a number followed by a
whitespace-initial remainder, the remainder strips to a non-empty title
and stripping commutes with the group-2 whitespace drop. -/
theorem pyStrip_suffix_props (text pre : Str) (w : Char) (r' : Str)
    (hstrip : pyStrip text = pre ++ (w :: r')) :
    ¬ pyStrip (w :: r') = [] ∧
    pyStrip ((w :: r').dropWhile isSpaceChar) = pyStrip (w :: r') := by
  rcases hlast : (w :: r').getLast? with _ | c
  · rw [List.getLast?_eq_none_iff] at hlast
    exact absurd hlast (by simp)
  · have hplast : (pyStrip text).getLast? = some c := by
      rw [hstrip, List.getLast?_append_of_ne_nil pre (by simp)]
      exact hlast
    have hc : isSpaceChar c = false := pyStrip_getLast_not_space text c hplast
    have hprops := pyStrip_of_getLast_not_space (w :: r') c hlast hc
    refine ⟨hprops.2, ?_⟩
    unfold pyStrip
    rw [dropWhile_idem]

/-- Evaluation of `parseSectionHeading` when the pattern matches. -/
theorem parseSectionHeading_eval (text : Str) (ln : Nat) (number rest : Str)
    (hm : matchSectionHeading (pyStrip text) =
      some (number, rest.dropWhile isSpaceChar))
    (hne : ¬ pyStrip rest = [])
    (heq : pyStrip (rest.dropWhile isSpaceChar) = pyStrip rest) :
    (parseSectionHeading text ln).number = number ∧
    (parseSectionHeading text ln).title = pyStrip rest ∧
    (parseSectionHeading text ln).filename = sanitizeFilename (pyStrip rest) := by
  simp only [parseSectionHeading]
  rw [hm]
  simp only [heq]
  rw [if_neg hne]
  exact ⟨trivial, rfl, rfl⟩

/-- Numeric-decomposition case of the classification. -/
theorem parseSectionHeading_num_case (text : Str) (ln : Nat) (d1 d2 rest : Str)
    (hd1 : ¬ d1 = []) (hd1d : ∀ c ∈ d1, isDigitChar c = true)
    (hd2 : ¬ d2 = []) (hd2d : ∀ c ∈ d2, isDigitChar c = true)
    (hs : headIsSpace rest)
    (hstrip : pyStrip text = d1 ++ '.' :: (d2 ++ rest)) :
    (parseSectionHeading text ln).number = d1 ++ '.' :: d2 ∧
    (parseSectionHeading text ln).title = pyStrip rest ∧
    (parseSectionHeading text ln).filename = sanitizeFilename (pyStrip rest) := by
  cases rest with
  | nil => exact absurd hs (by simp [headIsSpace])
  | cons w r' =>
    have hw : isSpaceChar w = true := hs
    have hm := matchSectionHeading_num d1 d2 w r' hd1 hd1d hd2 hd2d hw
    rw [← hstrip] at hm
    have hprops := pyStrip_suffix_props text (d1 ++ '.' :: d2) w r'
      (by rw [hstrip]; simp)
    exact parseSectionHeading_eval text ln _ _ hm hprops.1 hprops.2

/-- Letter-decomposition case of the classification. -/
theorem parseSectionHeading_letter_case (text : Str) (ln : Nat) (u : Char)
    (d2 rest : Str) (hu : isUpperChar u = true)
    (hd2 : ¬ d2 = []) (hd2d : ∀ c ∈ d2, isDigitChar c = true)
    (hs : headIsSpace rest)
    (hstrip : pyStrip text = u :: '.' :: (d2 ++ rest)) :
    (parseSectionHeading text ln).number = u :: '.' :: d2 ∧
    (parseSectionHeading text ln).title = pyStrip rest ∧
    (parseSectionHeading text ln).filename = sanitizeFilename (pyStrip rest) := by
  cases rest with
  | nil => exact absurd hs (by simp [headIsSpace])
  | cons w r' =>
    have hw : isSpaceChar w = true := hs
    have hm := matchSectionHeading_letter u d2 w r' hu hd2 hd2d hw
    rw [← hstrip] at hm
    have hprops := pyStrip_suffix_props text (u :: '.' :: d2) w r'
      (by rw [hstrip]; simp)
    exact parseSectionHeading_eval text ln _ _ hm hprops.1 hprops.2

/-- C1 (corrected): classification of a level-3 heading yields a Numbered
section exactly when its stripped text begins with `digits.digits` or
`UpperLetter.digits` not immediately followed by a further `.digit` AND
followed by at least one whitespace character (the requirement the claim
omits — see the counterexample at the bare text `1.2`).  In that case the
section's number is the matched prefix and its title the trimmed
remainder (never empty, since the stripped text cannot end in
whitespace), with the sanitized filename; any other text — including
three-level patterns like `1.1.1` — yields a ContentHeading whose title
is the full stripped text, with empty number and filename; classification
is a total function, so it never raises, and an empty filename is exactly
what keeps the converter from ever creating a file. -/
theorem sectionClassification (text : Str) (ln : Nat) :
    (¬ (parseSectionHeading text ln).filename = [] ↔ specTwoLevelWs text) ∧
    (∀ d1 d2 rest, ¬ d1 = [] → (∀ c ∈ d1, isDigitChar c = true) → ¬ d2 = [] →
      (∀ c ∈ d2, isDigitChar c = true) → headIsSpace rest →
      pyStrip text = d1 ++ '.' :: (d2 ++ rest) →
      (parseSectionHeading text ln).number = d1 ++ '.' :: d2 ∧
      (parseSectionHeading text ln).title = pyStrip rest ∧
      (parseSectionHeading text ln).filename = sanitizeFilename (pyStrip rest)) ∧
    (∀ u d2 rest, isUpperChar u = true → ¬ d2 = [] →
      (∀ c ∈ d2, isDigitChar c = true) → headIsSpace rest →
      pyStrip text = u :: '.' :: (d2 ++ rest) →
      (parseSectionHeading text ln).number = u :: '.' :: d2 ∧
      (parseSectionHeading text ln).title = pyStrip rest ∧
      (parseSectionHeading text ln).filename = sanitizeFilename (pyStrip rest)) ∧
    (¬ specTwoLevelWs text →
      (parseSectionHeading text ln).title = pyStrip text ∧
      (parseSectionHeading text ln).number = [] ∧
      (parseSectionHeading text ln).filename = []) := by
  have hcontent : ¬ specTwoLevelWs text →
      (parseSectionHeading text ln).title = pyStrip text ∧
      (parseSectionHeading text ln).number = [] ∧
      (parseSectionHeading text ln).filename = [] := by
    intro hns
    rcases hm : matchSectionHeading (pyStrip text) with _ | ⟨num0, g2⟩
    · simp only [parseSectionHeading]
      rw [hm]
      exact ⟨rfl, rfl, rfl⟩
    · exact absurd (spec_of_matchSectionHeading text num0 g2 hm) hns
  refine ⟨?_, ?_, ?_, hcontent⟩
  · constructor
    · intro hne
      rcases hm : matchSectionHeading (pyStrip text) with _ | ⟨num0, g2⟩
      · exfalso
        apply hne
        simp only [parseSectionHeading]
        rw [hm]
      · exact spec_of_matchSectionHeading text num0 g2 hm
    · intro hspec
      rcases hspec with ⟨d1, d2, rest, hstrip, h1, h2, h3, h4, h5⟩ |
        ⟨u, d2, rest, hstrip, h1, h2, h3, h4⟩
      · rw [(parseSectionHeading_num_case text ln d1 d2 rest h1 h2 h3 h4 h5 hstrip).2.2]
        exact sanitizeFilename_ne_nil _
      · rw [(parseSectionHeading_letter_case text ln u d2 rest h1 h2 h3 h4 hstrip).2.2]
        exact sanitizeFilename_ne_nil _
  · intro d1 d2 rest h1 h2 h3 h4 h5 hstrip
    exact parseSectionHeading_num_case text ln d1 d2 rest h1 h2 h3 h4 h5 hstrip
  · intro u d2 rest h1 h2 h3 h4 hstrip
    exact parseSectionHeading_letter_case text ln u d2 rest h1 h2 h3 h4 hstrip

/-- Witness for C1 at the concrete heading `1.1  Intro `. -/
theorem sectionClassification_witness :
    (parseSectionHeading (str "1.1  Intro ") 7).number = str "1.1" ∧
    (parseSectionHeading (str "1.1  Intro ") 7).title = str "Intro" ∧
    (parseSectionHeading (str "1.1  Intro ") 7).filename = str "intro.rst" := by
  have h := (sectionClassification (str "1.1  Intro ") 7).2.1
    (str "1") (str "1") (str "  Intro")
    (by decide) (by decide) (by decide) (by decide)
    (by show isSpaceChar ' ' = true; decide) (by decide)
  refine ⟨h.1, ?_, ?_⟩
  · rw [h.2.1]; decide
  · rw [h.2.2]; decide

/-! ## C8: determinism and idempotence of the filename sanitizer -/

/-- Char.ofNat at a valid scalar value below the surrogate range. -/
theorem toNat_ofNat_valid (n : Nat) (h1 : 97 ≤ n) (h2 : n ≤ 122) :
    (Char.ofNat n).toNat = n := by
  unfold Char.ofNat
  rw [dif_pos (by left; omega)]
  exact rfl

/-- Arithmetic bounds carried by `isUpperChar`. -/
theorem upper_bounds_of_isUpper (c : Char) (h : isUpperChar c = true) :
    65 ≤ c.toNat ∧ c.toNat ≤ 90 := by
  simp [isUpperChar] at h
  omega

/-- Lowercasing an uppercase letter adds 32 to its scalar value. -/
theorem lowerChar_toNat_of_upper (c : Char) (h : isUpperChar c = true) :
    (lowerChar c).toNat = c.toNat + 32 := by
  have hb := upper_bounds_of_isUpper c h
  rw [lowerChar, if_pos hb]
  exact toNat_ofNat_valid _ (by omega) (by omega)

/-- `lowerChar` fixes every character that is not an uppercase letter. -/
theorem lowerChar_of_not_upper (c : Char) (h : isUpperChar c = false) :
    lowerChar c = c := by
  have hb : ¬ (65 ≤ c.toNat ∧ c.toNat ≤ 90) := by
    simp [isUpperChar] at h
    omega
  rw [lowerChar, if_neg hb]

/-- Only the hyphen lowercases to a hyphen. -/
theorem lowerChar_eq_hyphen (c : Char) (h : lowerChar c = '-') : c = '-' := by
  cases hu : isUpperChar c with
  | true =>
    have ht := lowerChar_toNat_of_upper c hu
    have hb := upper_bounds_of_isUpper c hu
    rw [h] at ht
    have h45 : ('-').toNat = 45 := rfl
    omega
  | false =>
    rw [lowerChar_of_not_upper c hu] at h
    exact h

/-- Lowercasing a kept non-whitespace character yields a sanitized-alphabet
character: a non-uppercase word character or a hyphen. -/
theorem goodChar_lowerChar (c : Char) (hk : keepChar c = true)
    (hs : isSpaceChar c = false) : goodChar (lowerChar c) = true := by
  cases hu : isUpperChar c with
  | true =>
    have ht := lowerChar_toNat_of_upper c hu
    have hb := upper_bounds_of_isUpper c hu
    have h1 : isLowerChar (lowerChar c) = true := by
      simp [isLowerChar]
      omega
    have h2 : isUpperChar (lowerChar c) = false := by
      simp [isUpperChar]
      omega
    simp [goodChar, isWordChar, isAlphaChar, h1, h2]
  | false =>
    rw [lowerChar_of_not_upper c hu]
    simp [keepChar, hs] at hk
    rcases hk with hw | hh
    · simp [goodChar, hw, hu]
    · subst hh; decide

/-- Unfolding `collapseGo` on a hyphen-or-space head, for both flags. -/
theorem collapseGo_cons_run (t : Str) (a : Char) (ha : isHyphenOrSpace a = true) :
    collapseGo true (a :: t) = collapseGo true t ∧
    collapseGo false (a :: t) = '-' :: collapseGo true t := by
  constructor <;> simp [collapseGo, ha]

/-- Unfolding `collapseGo` on a head outside the collapsed class. -/
theorem collapseGo_cons_solid (flag : Bool) (t : Str) (a : Char)
    (ha : isHyphenOrSpace a = false) :
    collapseGo flag (a :: t) = a :: collapseGo false t := by
  simp [collapseGo, ha]

/-- Every character emitted by `collapseGo` is either the substituted hyphen
or an input character outside the collapsed class. -/
theorem collapseGo_mem : ∀ (flag : Bool) (l : Str) (c : Char),
    c ∈ collapseGo flag l → c = '-' ∨ (c ∈ l ∧ isHyphenOrSpace c = false) := by
  intro flag l
  induction l generalizing flag with
  | nil => intro c h; simp [collapseGo] at h
  | cons a t ih =>
    intro c h
    cases ha : isHyphenOrSpace a with
    | true =>
      cases flag with
      | true =>
        rw [(collapseGo_cons_run t a ha).1] at h
        rcases ih true c h with h1 | h2
        · exact Or.inl h1
        · exact Or.inr ⟨List.mem_cons_of_mem a h2.1, h2.2⟩
      | false =>
        rw [(collapseGo_cons_run t a ha).2] at h
        rcases List.mem_cons.mp h with rfl | hm
        · exact Or.inl rfl
        · rcases ih true c hm with h1 | h2
          · exact Or.inl h1
          · exact Or.inr ⟨List.mem_cons_of_mem a h2.1, h2.2⟩
    | false =>
      rw [collapseGo_cons_solid flag t a ha] at h
      rcases List.mem_cons.mp h with rfl | hm
      · exact Or.inr ⟨List.mem_cons_self c t, ha⟩
      · rcases ih false c hm with h1 | h2
        · exact Or.inl h1
        · exact Or.inr ⟨List.mem_cons_of_mem a h2.1, h2.2⟩

/-- With the in-run flag set, the next emitted character is outside the
collapsed class: the pending run already emitted its hyphen. -/
theorem collapseGo_true_head : ∀ (l : Str) (c : Char) (cs : Str),
    collapseGo true l = c :: cs → isHyphenOrSpace c = false := by
  intro l
  induction l with
  | nil => intro c cs h; simp [collapseGo] at h
  | cons a t ih =>
    intro c cs h
    cases ha : isHyphenOrSpace a with
    | true =>
      rw [(collapseGo_cons_run t a ha).1] at h
      exact ih c cs h
    | false =>
      rw [collapseGo_cons_solid true t a ha] at h
      cases h
      exact ha

/-- `collapseGo` never emits two adjacent hyphens. -/
theorem collapseGo_chain (l : Str) : ∀ flag, noTwoHyphens (collapseGo flag l) := by
  induction l with
  | nil => intro flag; cases flag <;> exact List.chain'_nil
  | cons a t ih =>
    intro flag
    cases ha : isHyphenOrSpace a with
    | true =>
      cases flag with
      | true =>
        rw [noTwoHyphens, (collapseGo_cons_run t a ha).1]
        exact ih true
      | false =>
        rw [noTwoHyphens, (collapseGo_cons_run t a ha).2, List.chain'_cons']
        refine ⟨?_, ih true⟩
        intro y hy
        cases hh : collapseGo true t with
        | nil => rw [hh] at hy; simp at hy
        | cons b bs =>
          rw [hh] at hy
          simp at hy
          subst hy
          intro hcon
          have hb := collapseGo_true_head t b bs hh
          rw [hcon.2] at hb
          exact absurd hb (by decide)
    | false =>
      rw [noTwoHyphens, collapseGo_cons_solid flag t a ha, List.chain'_cons']
      refine ⟨?_, ih false⟩
      intro y _ hcon
      rw [hcon.1] at ha
      exact absurd ha (by decide)

/-- `collapseGo` fixes a string with no whitespace, no two adjacent hyphens
and (when the flag is set) no leading hyphen. -/
theorem collapseGo_fixpoint : ∀ (l : Str) (flag : Bool),
    (∀ c ∈ l, isSpaceChar c = false) →
    noTwoHyphens l →
    (flag = true → ∀ c cs, l = c :: cs → ¬ c = '-') →
    collapseGo flag l = l := by
  intro l
  induction l with
  | nil => intro flag _ _ _; cases flag <;> rfl
  | cons a t ih =>
    intro flag hns hch hflag
    cases ha : isHyphenOrSpace a with
    | false =>
      rw [collapseGo_cons_solid flag t a ha]
      congr 1
      apply ih false
      · exact fun c hc => hns c (List.mem_cons_of_mem a hc)
      · exact List.Chain'.tail hch
      · intro hf; simp at hf
    | true =>
      have hsa : isSpaceChar a = false := hns a (List.mem_cons_self a t)
      have haa : a = '-' := by
        simp [isHyphenOrSpace, hsa] at ha
        exact ha
      cases flag with
      | true => exact absurd haa (hflag rfl a t rfl)
      | false =>
        rw [(collapseGo_cons_run t a ha).2, haa]
        congr 1
        apply ih true
        · exact fun c hc => hns c (List.mem_cons_of_mem a hc)
        · exact List.Chain'.tail hch
        · intro _ c cs hcs
          rw [noTwoHyphens, List.chain'_cons'] at hch
          have hr := hch.1 c (by rw [hcs]; rfl)
          intro hc
          exact hr ⟨haa, hc⟩

/-- `List.Chain'` survives dropping a prefix. -/
theorem chain'_dropWhile {R : Char → Char → Prop} (p : Char → Bool) :
    ∀ (l : Str), List.Chain' R l → List.Chain' R (l.dropWhile p) := by
  intro l
  induction l with
  | nil => intro h; exact h
  | cons a t ih =>
    intro h
    rw [List.dropWhile_cons]
    split
    · exact ih h.tail
    · exact h

/-- `List.Chain'` survives dropping a suffix. -/
theorem chain'_dropTrailing {R : Char → Char → Prop} (p : Char → Bool) (l : Str)
    (h : List.Chain' R l) : List.Chain' R (dropTrailing p l) := by
  have h1 : List.Chain' (flip R) l.reverse := by
    rw [List.chain'_reverse]
    exact h
  have h2 := chain'_dropWhile p l.reverse h1
  unfold dropTrailing
  rw [List.chain'_reverse]
  exact h2

/-- `dropTrailing` only removes characters. -/
theorem dropTrailing_subset (p : Char → Bool) (l : Str) (c : Char)
    (h : c ∈ dropTrailing p l) : c ∈ l := by
  unfold dropTrailing at h
  have h1 : c ∈ l.reverse.dropWhile p := by simpa using h
  have h2 : c ∈ l.reverse := (List.dropWhile_sublist p).subset h1
  simpa using h2

/-- `stripHyphens` only removes characters. -/
theorem stripHyphens_subset (l : Str) (c : Char) (h : c ∈ stripHyphens l) : c ∈ l := by
  unfold stripHyphens at h
  exact (List.dropWhile_sublist _).subset (dropTrailing_subset _ _ c h)

/-- `dropTrailing` splits the list into the kept prefix and the dropped
trailing run. -/
theorem dropTrailing_append (p : Char → Bool) (l : Str) :
    dropTrailing p l ++ (l.reverse.takeWhile p).reverse = l := by
  unfold dropTrailing
  rw [← List.reverse_append, List.takeWhile_append_dropWhile, List.reverse_reverse]

/-- A nonempty `dropTrailing` result starts where the list starts. -/
theorem dropTrailing_head (p : Char → Bool) (l : Str) (c : Char) (cs : Str)
    (h : dropTrailing p l = c :: cs) : l.head? = some c := by
  have happ := dropTrailing_append p l
  rw [h] at happ
  rw [← happ]
  rfl

/-- A hyphen-stripped string does not start with a hyphen. -/
theorem stripHyphens_head (l : Str) (c : Char) (cs : Str)
    (h : stripHyphens l = c :: cs) : ¬ c = '-' := by
  unfold stripHyphens at h
  have h1 := dropTrailing_head _ _ c cs h
  cases hv : l.dropWhile (fun x => x = '-') with
  | nil => rw [hv] at h1; simp at h1
  | cons a t =>
    rw [hv] at h1
    have hc : a = c := by simpa using h1
    have hfail := dropWhile_head_false l a t hv
    subst hc
    simpa using hfail

/-- The last character surviving `dropTrailing` fails the predicate. -/
theorem dropTrailing_getLast (p : Char → Bool) (l : Str) (c : Char)
    (h : (dropTrailing p l).getLast? = some c) : p c = false := by
  unfold dropTrailing at h
  rw [List.getLast?_reverse] at h
  cases hv : l.reverse.dropWhile p with
  | nil => rw [hv] at h; simp at h
  | cons a t =>
    rw [hv] at h
    cases h
    exact dropWhile_head_false _ _ _ hv

/-- A hyphen-stripped string does not end with a hyphen. -/
theorem stripHyphens_getLast (l : Str) (c : Char)
    (h : (stripHyphens l).getLast? = some c) : ¬ c = '-' := by
  unfold stripHyphens at h
  have hp := dropTrailing_getLast _ _ c h
  simpa using hp

/-- The sanitized base of any title is made of lowercase word characters and
hyphens, has no two adjacent hyphens, and neither starts nor ends with a
hyphen. -/
theorem sanitizeBase_facts (t : Str) :
    (∀ c ∈ sanitizeBase t, goodChar c = true) ∧
    noTwoHyphens (sanitizeBase t) ∧
    (∀ c cs, sanitizeBase t = c :: cs → ¬ c = '-') ∧
    (∀ c, (sanitizeBase t).getLast? = some c → ¬ c = '-') := by
  refine ⟨?_, ?_, ?_, ?_⟩
  · intro c hc
    simp only [sanitizeBase] at hc
    obtain ⟨c0, hc0, hlow⟩ := List.mem_map.mp hc
    have hmem := stripHyphens_subset _ c0 hc0
    rcases collapseGo_mem false _ c0 hmem with hh | ⟨hin, hhw⟩
    · rw [← hlow, hh]; decide
    · have hk : keepChar c0 = true := (List.mem_filter.mp hin).2
      have hs : isSpaceChar c0 = false := by
        simp [isHyphenOrSpace] at hhw
        exact hhw.2
      rw [← hlow]
      exact goodChar_lowerChar c0 hk hs
  · simp only [sanitizeBase, noTwoHyphens]
    rw [List.chain'_map]
    have hchain : List.Chain' (fun a b => ¬ (a = '-' ∧ b = '-'))
        (stripHyphens (collapseRuns (t.filter keepChar))) := by
      unfold stripHyphens
      apply chain'_dropTrailing
      apply chain'_dropWhile
      exact collapseGo_chain _ false
    refine List.Chain'.imp ?_ hchain
    intro a b hab hcon
    exact hab ⟨lowerChar_eq_hyphen a hcon.1, lowerChar_eq_hyphen b hcon.2⟩
  · intro c cs h
    simp only [sanitizeBase] at h
    cases hS : stripHyphens (collapseRuns (t.filter keepChar)) with
    | nil => rw [hS] at h; simp at h
    | cons c0 cs0 =>
      rw [hS] at h
      have hc0 : lowerChar c0 = c := by simpa using congrArg List.head? h
      have hne := stripHyphens_head _ c0 cs0 hS
      intro hcc
      rw [hcc] at hc0
      exact hne (lowerChar_eq_hyphen c0 hc0)
  · intro c h
    simp only [sanitizeBase] at h
    rw [List.getLast?_map] at h
    cases hS : (stripHyphens (collapseRuns (t.filter keepChar))).getLast? with
    | none => rw [hS] at h; simp at h
    | some c0 =>
      rw [hS] at h
      have hc0 : lowerChar c0 = c := by simpa using h
      have hne := stripHyphens_getLast _ c0 hS
      intro hcc
      rw [hcc] at hc0
      exact hne (lowerChar_eq_hyphen c0 hc0)

/-- `sanitizeBase` fixes any string already in sanitized form: every pass of
the pipeline (filter, collapse, strip, lowercase) leaves it unchanged. -/
theorem sanitizeBase_of_good (b : Str)
    (hgood : ∀ c ∈ b, goodChar c = true)
    (hchain : noTwoHyphens b)
    (hhead : ∀ c cs, b = c :: cs → ¬ c = '-')
    (hlast : ∀ c, b.getLast? = some c → ¬ c = '-') :
    sanitizeBase b = b := by
  have hf : b.filter keepChar = b := by
    apply List.filter_eq_self.mpr
    intro a ha
    have hg := hgood a ha
    simp [goodChar] at hg
    rcases hg with ⟨hw, _⟩ | hh
    · simp [keepChar, hw]
    · simp [keepChar, hh]
  have hcol : collapseRuns b = b := by
    rw [collapseRuns]
    apply collapseGo_fixpoint
    · intro c hc
      have hg := hgood c hc
      simp [goodChar] at hg
      rcases hg with ⟨hw, _⟩ | hh
      · simp [isWordChar, isAlphaChar, isUpperChar, isLowerChar, isDigitChar] at hw
        simp [isSpaceChar]
        omega
      · subst hh; decide
    · exact hchain
    · intro hfalse; simp at hfalse
  have hdw : b.dropWhile (fun c => c = '-') = b := by
    cases hbc : b with
    | nil => rfl
    | cons c cs =>
      have hnc := hhead c cs hbc
      rw [List.dropWhile_cons, if_neg (by simpa using hnc)]
  have hsh : stripHyphens b = b := by
    rw [stripHyphens, hdw]
    cases hlb : b.getLast? with
    | none =>
      rw [List.getLast?_eq_none_iff.mp hlb]
      rfl
    | some c =>
      exact dropTrailing_of_getLast b c hlb (by simpa using hlast c hlb)
  have hmap : b.map lowerChar = b := by
    have hall : ∀ a ∈ b, lowerChar a = id a := by
      intro a ha
      have hg := hgood a ha
      simp [goodChar] at hg
      rcases hg with ⟨_, hu⟩ | hh
      · exact lowerChar_of_not_upper a (by simpa using hu)
      · subst hh; decide
    rw [List.map_congr_left hall, List.map_id]
  simp only [sanitizeBase]
  rw [hf, hcol, hsh, hmap]

/-- Sanitizing twice equals sanitizing once. -/
theorem sanitizeBase_fixpoint (t : Str) :
    sanitizeBase (sanitizeBase t) = sanitizeBase t := by
  obtain ⟨h1, h2, h3, h4⟩ := sanitizeBase_facts t
  exact sanitizeBase_of_good _ h1 h2 h3 h4

/-- `Path.stem` undoes appending the `.rst` extension. -/
theorem fileStem_append_rst (base : Str) :
    fileStem (base ++ str ".rst") = base := by
  have hlen : (base ++ str ".rst").length - 4 = base.length := by
    rw [List.length_append]
    have h4 : (str ".rst").length = 4 := rfl
    omega
  rw [fileStem, hlen]
  exact List.take_left base (str ".rst")

/-- C8: `_sanitize_filename` is a pure deterministic function of the title:
re-sanitizing the stem of the produced filename reproduces the same filename;
a title whose sanitized base is empty yields `section.rst`; and the sanitized
base consists of lowercase word characters and hyphens with no two adjacent
hyphens (each run of whitespace and hyphens collapsed to one hyphen, ends
trimmed). -/
theorem sanitizeDeterministicIdempotent (title : Str) :
    sanitizeFilename (fileStem (sanitizeFilename title)) = sanitizeFilename title ∧
    (sanitizeBase title = [] → sanitizeFilename title = str "section.rst") ∧
    (∀ c ∈ sanitizeBase title, goodChar c = true) ∧
    noTwoHyphens (sanitizeBase title) := by
  obtain ⟨hgood, hchain, _, _⟩ := sanitizeBase_facts title
  refine ⟨?_, ?_, hgood, hchain⟩
  · by_cases h : sanitizeBase title = []
    · have h1 : sanitizeFilename title = str "section" ++ str ".rst" := by
        rw [sanitizeFilename, if_pos h]
      rw [h1, fileStem_append_rst]
      decide
    · have h1 : sanitizeFilename title = sanitizeBase title ++ str ".rst" := by
        rw [sanitizeFilename, if_neg h]
      rw [h1, fileStem_append_rst, sanitizeFilename, sanitizeBase_fixpoint title,
        if_neg h]
  · intro h
    rw [sanitizeFilename, if_pos h]
    rfl

/-- Witness for C8: the all-punctuation title `!!!` sanitizes to the
substitute filename `section.rst`. -/
theorem sanitizeDeterministicIdempotent_witness :
    sanitizeFilename (str "!!!") = str "section.rst" :=
  (sanitizeDeterministicIdempotent (str "!!!")).2.1 (by decide)

end Rstbuddy
